import Mathlib

/-!
Verification development for the go-restli type registry and the generated
ExtensionSchemaAnnotation codec.

The registry side embeds `typeregistry.go` (the `utils` package source):
`Register`, `Finalize` with its three stages (`validateAllTypesSatisfied`,
`flagCyclicDependencies`, `remediateConflictingNames`), the depth-first
cycle search `findCycle` with `Path.IntroducesCycle`/`Path.SeenNode`, and the
flood-fill `flagCyclic`.  Go maps are modelled as association lists whose
order stands for one admissible map-iteration order; functions that iterate
over a map take the iteration order as an explicit list where a claim needs
to quantify over it.  The mutating methods are modelled by explicit state
passing.  Recursive traversals carry an explicit fuel argument; fuel
exhaustion is `none`, and sufficiency of the fuel the embedding uses is
proved where termination is at stake.

The codec side embeds the generated `ExtensionSchemaAnnotation.gr.go`
marshal/unmarshal logic over a small wire-value model.  Parts of the
repository that the sources at hand only call into (the `Identifier` methods,
`restlicodec` readers, `patch.PartialUpdateFieldChecker`) are modelled from
the specification and marked as such.
-/

set_option maxRecDepth 8000

deriving instance DecidableEq for Except

namespace restli

/-- Modelled from the spec: `Identifier` is the unique key naming a type,
a short name plus a dotted namespace; its defining Go file is not among the
sources at hand. -/
structure Identifier where
  Name : String
  Namespace : String
deriving DecidableEq

/-- Modelled from the spec: `FullName()` is `Namespace + "." + Name`. -/
def Identifier.FullName (i : Identifier) : String :=
  i.Namespace ++ "." ++ i.Name

/-- Modelled from the spec: `PackagePath()` derives the module import path
from the namespace alone, so two identifiers share a package path exactly
when they share a namespace; the path-shaped decoration is irrelevant here
and is dropped. -/
def Identifier.PackagePath (i : Identifier) : String :=
  i.Namespace

/-- The `ComplexType` interface restricted to the members the registry reads:
the identifier and the inner-type set (`IdentifierSet` iteration is modelled
as a list in a fixed order).  The code-generation members (`GetSourceFile`,
`ShouldReference`, `GenerateCode`) play no role in the claims. -/
structure ComplexType where
  id : Identifier
  innerTypes : List Identifier
deriving DecidableEq

/-- `registeredType` from the source; the Go field `Type` is spelled `Typ`
because `Type` is reserved in Lean. -/
structure registeredType where
  Typ : ComplexType
  PackageRoot : String
  IsCyclic : Bool := false
  TypeNameOverride : String := ""
  IsCustomTyperef : Bool := false
deriving DecidableEq

/-- `typeRegistry` from the source: `types` is the `Identifier → registeredType`
map, `packageRoots` the `packageRoot → IdentifierSet` map, both as association
lists in insertion order. -/
structure typeRegistry where
  types : List (Identifier × registeredType)
  packageRoots : List (String × List Identifier)
deriving DecidableEq

def emptyRegistry : typeRegistry := ⟨[], []⟩

def lookupTypes : List (Identifier × registeredType) → Identifier → Option registeredType
  | [], _ => none
  | p :: rest, i => if p.1 = i then some p.2 else lookupTypes rest i

def typeRegistry.lookupType (reg : typeRegistry) (i : Identifier) : Option registeredType :=
  lookupTypes reg.types i

/-- `IdentifierSet.Add`: adding to a map-backed set, idempotent. -/
def addIdentifier (s : List Identifier) (i : Identifier) : List Identifier :=
  if i ∈ s then s else s ++ [i]

/-- Creates the package root's set when absent, then adds the identifier,
exactly as the two steps in `Register` do. -/
def setRootMember : List (String × List Identifier) → String → Identifier → List (String × List Identifier)
  | [], root, i => [(root, [i])]
  | p :: rest, root, i =>
      if p.1 = root then (p.1, addIdentifier p.2 i) :: rest
      else p :: setRootMember rest root i

def alreadyRegisteredMsg (i : Identifier) (pkgRoot : String) : String :=
  "go-restli: " ++ i.FullName ++ " has already been registered in package " ++ pkgRoot

/-- `typeRegistry.Register` from the source.  The Go method mutates the
receiver and returns an `error`; modelled as state passing: the updated
registry plus the optional error message (the `%q` formatting of the error is
rendered with `FullName`).  `addImportName` touches code-emission state
outside the registry and has no observable effect on it, so it is dropped. -/
def typeRegistry.Register (reg : typeRegistry) (t : ComplexType) (packageRoot : String) :
    typeRegistry × Option String :=
  let i := t.id
  match reg.lookupType i with
  | none =>
      ({ types := reg.types ++ [(i, { Typ := t, PackageRoot := packageRoot })],
         packageRoots := setRootMember reg.packageRoots packageRoot i }, none)
  | some ct => (reg, some (alreadyRegisteredMsg i ct.PackageRoot))

def typeRegistry.isRegistered (reg : typeRegistry) (i : Identifier) : Bool :=
  (reg.lookupType i).isSome

/-- `reg.get(id).Type.InnerTypes()`.  On an identifier that is not registered
the Go code panics; the model returns the empty set instead, a branch only
reachable on registries that fail completeness validation. -/
def typeRegistry.innerOf (reg : typeRegistry) (i : Identifier) : List Identifier :=
  match reg.lookupType i with
  | some rt => rt.Typ.innerTypes
  | none => []

/-- `typeRegistry.IsCyclic`; `false` stands for the Go panic on unknown ids. -/
def typeRegistry.IsCyclic (reg : typeRegistry) (i : Identifier) : Bool :=
  match reg.lookupType i with
  | some rt => rt.IsCyclic
  | none => false

/-- `typeRegistry.PackageRoot`; `""` stands for the Go panic on unknown ids.
Modelled from the spec as well for the `Identifier.PackageRoot()` calls in
`flagCyclicDependencies`: the package-root of an identifier is the one
recorded at registration. -/
def typeRegistry.PackageRootOf (reg : typeRegistry) (i : Identifier) : String :=
  match reg.lookupType i with
  | some rt => rt.PackageRoot
  | none => ""

/-- `typeRegistry.TypeNameOverride`: the source itself returns `""` for
unknown or non-overridden types. -/
def typeRegistry.TypeNameOverrideOf (reg : typeRegistry) (i : Identifier) : String :=
  match reg.lookupType i with
  | some rt => rt.TypeNameOverride
  | none => ""

/-- The in-place `node.IsCyclic = true` mutation in `flagCyclic`. -/
def typeRegistry.setCyclic (reg : typeRegistry) (i : Identifier) : typeRegistry :=
  { reg with types := reg.types.map (fun p => if p.1 = i then (p.1, { p.2 with IsCyclic := true }) else p) }

/-- The in-place `reg.get(id).TypeNameOverride = override` mutation in
`remediateConflictingNames`. -/
def typeRegistry.setOverride (reg : typeRegistry) (i : Identifier) (ov : String) : typeRegistry :=
  { reg with types := reg.types.map (fun p => if p.1 = i then (p.1, { p.2 with TypeNameOverride := ov }) else p) }

/-! ## Path and the cycle test -/

abbrev Path := List Identifier

def Path.Add (p : Path) (i : Identifier) : Path := p ++ [i]

def Path.SeenNode : Path → Identifier → Bool
  | [], _ => false
  | node :: rest, i => if node = i then true else Path.SeenNode rest i

/-- The backward index scan of `Path.IntroducesCycle`, iterating ancestors
from the most recent one (`p.reverse`); `suffix` accumulates the slice
`p[i:]` of the ancestors already scanned, and `inSameNamespace` is cleared
forever once an ancestor in a package other than `nextPkg` is passed. -/
def introGo (nextPkg : String) : List Identifier → List Identifier → Bool → List Identifier
  | [], _, _ => []
  | x :: rest, suffix, inSameNamespace =>
      if x.PackagePath ≠ nextPkg then introGo nextPkg rest (x :: suffix) false
      else if inSameNamespace then introGo nextPkg rest (x :: suffix) inSameNamespace
      else x :: suffix

/-- `Path.IntroducesCycle` from the source: scanning the ancestors backward,
it reports the slice `p[i:] ++ [nextNode]` at the first ancestor that is back
in `nextNode`'s package after the scan has passed an ancestor of a different
package; otherwise it reports nothing. -/
def Path.IntroducesCycle (p : Path) (nextNode : Identifier) : Path :=
  match introGo nextNode.PackagePath p.reverse [] true with
  | [] => []
  | s :: rest => (s :: rest) ++ [nextNode]

/-! ## findCycle -/

/-- `typeRegistry.findCycle` from the source, with explicit fuel (`none` is
fuel exhaustion; `some []` is Go's `nil`, no cycle).  The Go child loop
returns at the first child whose recursive search yields a non-empty chain;
since the search mutates nothing, evaluating every child and keeping the
first non-`some []` outcome is the same function. -/
def findCycleF (reg : typeRegistry) : Nat → Identifier → Path → Option Path
  | 0, _, _ => none
  | fuel + 1, nextNode, path =>
      match path.IntroducesCycle nextNode with
      | c :: cs => some (c :: cs)
      | [] =>
          if path.SeenNode nextNode then some []
          else
            let newPath := path.Add nextNode
            let children := (reg.innerOf nextNode).filter (fun c => ¬ reg.IsCyclic c)
            match (children.map (fun c => findCycleF reg fuel c newPath)).find? (fun r => decide (r ≠ some [])) with
            | some r => r
            | none => some []

/-- Fuel that the development proves sufficient for `findCycle` on validated
registries: the search path never repeats a registered identifier. -/
def typeRegistry.findFuel (reg : typeRegistry) : Nat := reg.types.length + 1

def typeRegistry.findCycleD (reg : typeRegistry) (i : Identifier) (p : Path) : Option Path :=
  findCycleF reg reg.findFuel i p

/-! ## flagCyclic and flagCyclicDependencies -/

/-- `typeRegistry.flagCyclic` from the source: set the node's flag, then
descend into the not-yet-cyclic children that share the node's package root,
threading the registry through the child loop.  Fuel as above. -/
def flagCyclicF : Nat → typeRegistry → Identifier → Option typeRegistry
  | 0, _, _ => none
  | fuel + 1, reg, i =>
      let root := reg.PackageRootOf i
      (reg.innerOf i).foldl
        (fun acc c =>
          match acc with
          | none => none
          | some cur =>
              if ¬ cur.IsCyclic c ∧ cur.PackageRootOf c = root then flagCyclicF fuel cur c
              else some cur)
        (some (reg.setCyclic i))

/-- The step of `flagCyclic`'s child loop, named for the proofs below;
`flagCyclicF (fuel+1) reg i` folds it over `reg.innerOf i`. -/
def flagChildBody (fuel : Nat) (root : String) : Option typeRegistry → Identifier → Option typeRegistry :=
  fun acc c =>
    match acc with
    | none => none
    | some cur =>
        if ¬ cur.IsCyclic c ∧ cur.PackageRootOf c = root then flagCyclicF fuel cur c
        else some cur

/-- The `for _, c := range cycle { reg.flagCyclic(c) }` loop. -/
def flagAllF (fuel : Nat) : typeRegistry → List Identifier → Option typeRegistry
  | reg, [] => some reg
  | reg, c :: cs =>
      match flagCyclicF fuel reg c with
      | none => none
      | some reg' => flagAllF fuel reg' cs

def crossRootMsg (cycle : List Identifier) : String :=
  "go-restli: The following cyclic dependency between packages was detected but " ++
    "cannot be remediated due to type definitions being in different manifests: " ++
    String.intercalate " -> " (cycle.map Identifier.FullName)

/-- The inner `for { ... }` loop of `flagCyclicDependencies` for one start
node: search for a cycle, abort with the joined chain when its members span
more than one package root, otherwise flag every member (with flood fill) and
search again until no chain is found. -/
def flagLoopF : Nat → typeRegistry → Identifier → Option (Except String typeRegistry)
  | 0, _, _ => none
  | fuel + 1, reg, i =>
      match reg.findCycleD i [] with
      | none => none
      | some [] => some (.ok reg)
      | some (c :: cs) =>
          if ((c :: cs).map reg.PackageRootOf).dedup.length > 1 then
            some (.error (crossRootMsg (c :: cs)))
          else
            match flagAllF reg.findFuel reg (c :: cs) with
            | none => none
            | some reg' => flagLoopF fuel reg' i

/-- Fuel for the per-start-node loop; proved sufficient below. -/
def typeRegistry.loopFuel (reg : typeRegistry) : Nat := reg.types.length + 1

/-- `typeRegistry.flagCyclicDependencies` from the source, over an explicit
iteration order `ids` of the `types` map keys. -/
def flagCyclicDependenciesF : typeRegistry → List Identifier → Option (Except String typeRegistry)
  | reg, [] => some (.ok reg)
  | reg, i :: ids =>
      match flagLoopF reg.loopFuel reg i with
      | none => none
      | some (.error e) => some (.error e)
      | some (.ok reg') => flagCyclicDependenciesF reg' ids

/-! ## validateAllTypesSatisfied -/

def unsatisfiedMsg (i dep : Identifier) : String :=
  "go-restli: \"" ++ i.FullName ++ "\" depends on unknown type \"" ++ dep.FullName ++ "\""

def firstMissing (reg : typeRegistry) : List Identifier → Option Identifier
  | [] => none
  | d :: ds => if reg.isRegistered d then firstMissing reg ds else some d

/-- `typeRegistry.validateAllTypesSatisfied` from the source: the first
registered type one of whose inner types is unknown produces the error naming
the dependent and the missing dependency. -/
def validateTypes (reg : typeRegistry) : List (Identifier × registeredType) → Except String Unit
  | [] => .ok ()
  | p :: rest =>
      match firstMissing reg p.2.Typ.innerTypes with
      | some dep => .error (unsatisfiedMsg p.1 dep)
      | none => validateTypes reg rest

def typeRegistry.validateAllTypesSatisfied (reg : typeRegistry) : Except String Unit :=
  validateTypes reg reg.types

/-! ## remediateConflictingNames -/

/-- `ExportedIdentifier` from `codegen/codefile.go`:
`strings.ToUpper(identifier[:1]) + identifier[1:]` uppercases the leading
character, written here over the character list (the names involved are
ASCII, where the Go byte slice and the character agree; the Go code panics on
the empty string, the model returns it unchanged). -/
def ExportedIdentifier (s : String) : String :=
  match s.data with
  | [] => s
  | c :: rest => String.mk (c.toUpper :: rest)

/-- `strings.ToLower`, character by character. -/
def goToLower (s : String) : String :=
  String.mk (s.data.map Char.toLower)

def lastSegAux : List Char → List Char → List Char
  | [], acc => acc.reverse
  | c :: rest, acc => if c = '.' then lastSegAux rest [] else lastSegAux rest (c :: acc)

/-- `id.Namespace[strings.LastIndex(id.Namespace, ".")+1:]`: the segment after
the last dot, the whole string when there is none. -/
def lastSegment (ns : String) : String :=
  String.mk (lastSegAux ns.data [])

/-- The override computed in `remediateConflictingNames`:
`ExportedIdentifier(lastSegment(Namespace) + Name)`. -/
def overrideFor (i : Identifier) : String :=
  ExportedIdentifier (lastSegment i.Namespace ++ i.Name)

def renameMsg (i : Identifier) (ov : String) (conflict : Identifier) : String :=
  "go-restli: Could not rename conflicting type \"" ++ i.FullName ++ "\" to \"" ++
    i.Namespace ++ "." ++ ov ++ "\" as it would conflict with other renamed type \"" ++
    conflict.FullName ++ "\""

def lookupStr : List (String × Identifier) → String → Option Identifier
  | [], _ => none
  | p :: rest, k => if p.1 = k then some p.2 else lookupStr rest k

/-- The `conflictingTypes[name].Add(id)` grouping step. -/
def groupInsert : List (String × List Identifier) → String → Identifier → List (String × List Identifier)
  | [], k, i => [(k, [i])]
  | g :: gs, k, i =>
      if g.1 = k then (g.1, addIdentifier g.2 i) :: gs
      else g :: groupInsert gs k i

/-- Grouping of the cyclic members of one package root by
`strings.ToLower(id.Name)`. -/
def buildConflicting (reg : typeRegistry) : List Identifier → List (String × List Identifier) → List (String × List Identifier)
  | [], acc => acc
  | i :: is, acc =>
      if reg.IsCyclic i then buildConflicting reg is (groupInsert acc (goToLower i.Name) i)
      else buildConflicting reg is acc

/-- The per-group override loop: write each member's override, failing when a
previously written member of the same group computed the same one (the
`overrides` map is fresh for every group). -/
def assignOverrides (reg : typeRegistry) (overrides : List (String × Identifier)) :
    List Identifier → Except String typeRegistry
  | [] => .ok reg
  | i :: is =>
      let ov := overrideFor i
      let reg' := reg.setOverride i ov
      match lookupStr overrides ov with
      | some conflict => .error (renameMsg i ov conflict)
      | none => assignOverrides reg' ((ov, i) :: overrides) is

def processGroups (reg : typeRegistry) : List (String × List Identifier) → Except String typeRegistry
  | [] => .ok reg
  | (_, v) :: gs =>
      if v.length = 1 then processGroups reg gs
      else
        match assignOverrides reg [] v with
        | .error e => .error e
        | .ok reg' => processGroups reg' gs

def processRoots (reg : typeRegistry) : List (String × List Identifier) → Except String typeRegistry
  | [] => .ok reg
  | (_, ids) :: rs =>
      match processGroups reg (buildConflicting reg ids []) with
      | .error e => .error e
      | .ok reg' => processRoots reg' rs

/-- `typeRegistry.remediateConflictingNames` from the source (the override
writes never alter `packageRoots` or the cyclic flags, so iterating the
initial `packageRoots` list is the map iteration of the receiver). -/
def typeRegistry.remediateConflictingNames (reg : typeRegistry) : Except String typeRegistry :=
  processRoots reg reg.packageRoots

/-! ## Finalize -/

/-- `typeRegistry.Finalize` from the source over an explicit iteration order
for the cycle-detection stage: completeness validation, then cycle detection
and flagging, then name remediation, each failure aborting the run.  `none`
is fuel exhaustion inside stage two, proved unreachable on validated
registries below. -/
def typeRegistry.FinalizeWith (reg : typeRegistry) (ids : List Identifier) :
    Option (Except String typeRegistry) :=
  match reg.validateAllTypesSatisfied with
  | .error e => some (.error e)
  | .ok _ =>
      match flagCyclicDependenciesF reg ids with
      | none => none
      | some (.error e) => some (.error e)
      | some (.ok reg') => some reg'.remediateConflictingNames

def typeRegistry.Finalize (reg : typeRegistry) : Option (Except String typeRegistry) :=
  reg.FinalizeWith (reg.types.map (fun p => p.1))

/-! ## Wire values and the restlicodec boundary

The generated codec reads and writes keyed structures through the
`restlicodec` readers and writers, whose sources are not at hand; they are
modelled from the spec over a small wire-value type: a keyed structure is a
list of key/value pairs in encounter order, an array a list of values. -/

inductive WireValue where
  | str : String → WireValue
  | arr : List WireValue → WireValue
  | map : List (String × WireValue) → WireValue

/-- Modelled from the spec: the reader's `ReadString`. -/
def ReadString : WireValue → Except String String
  | .str s => .ok s
  | _ => .error "go-restli: value is not a string"

def ReadStringMapEntries : List (String × WireValue) → Except String (List (String × String))
  | [] => .ok []
  | kv :: rest =>
      match ReadString kv.2 with
      | .error e => .error e
      | .ok s =>
          match ReadStringMapEntries rest with
          | .error e => .error e
          | .ok m => .ok ((kv.1, s) :: m)

/-- Modelled from the spec: `restlicodec.ReadMap(reader, Reader.ReadString)`. -/
def ReadStringMap : WireValue → Except String (List (String × String))
  | .map entries => ReadStringMapEntries entries
  | _ => .error "go-restli: value is not a map"

/-- Modelled from the spec: `reader.Skip()` consumes any value without
error (forward compatibility). -/
def SkipValue : WireValue → Except String Unit := fun _ => .ok ()

def missingRequired (required : List String) (entries : List (String × WireValue)) : List String :=
  required.filter (fun f => ! entries.any (fun kv => kv.1 == f))

def missingFieldsMsg (missing : List String) : String :=
  "go-restli: missing required fields: " ++ String.intercalate ", " missing

def readFields {σ : Type} (cb : σ → String → WireValue → Except String σ) :
    σ → List (String × WireValue) → Except String σ
  | s, [] => .ok s
  | s, kv :: rest =>
      match cb s kv.1 kv.2 with
      | .error e => .error e
      | .ok s' => readFields cb s' rest

/-- Modelled from the spec: `reader.ReadRecord(requiredFields, callback)`
dispatches every key of the structure to the callback in encounter order and
then fails with an error naming the fields if some required field never
appeared among the keys. -/
def ReadRecord {σ : Type} (required : List String) (cb : σ → String → WireValue → Except String σ)
    (init : σ) (entries : List (String × WireValue)) : Except String σ :=
  match readFields cb init entries with
  | .error e => .error e
  | .ok s =>
      match missingRequired required entries with
      | [] => .ok s
      | f :: fs => .error (missingFieldsMsg (f :: fs))

/-! ## ExtensionSchemaAnnotation -/

structure ExtensionSchemaAnnotation where
  Using : Option String := none
  Params : Option (List (String × String)) := none
  VersionSuffix : Option String := none
deriving DecidableEq

/-- `restlicodec.NewRequiredFields()` with no arguments: the record has no
required fields. -/
def ExtensionSchemaAnnotationRequiredFields : List String := []

/-- `ExtensionSchemaAnnotation.UnmarshalField` from the generated source: the
switch dispatching a key to its field setter, `found = false` on anything
else. -/
def ExtensionSchemaAnnotation.UnmarshalFieldM (e : ExtensionSchemaAnnotation)
    (field : String) (v : WireValue) : Bool × Except String ExtensionSchemaAnnotation :=
  if field = "using" then
    (true, match ReadString v with
           | .ok s => .ok { e with Using := some s }
           | .error er => .error er)
  else if field = "params" then
    (true, match ReadStringMap v with
           | .ok m => .ok { e with Params := some m }
           | .error er => .error er)
  else if field = "versionSuffix" then
    (true, match ReadString v with
           | .ok s => .ok { e with VersionSuffix := some s }
           | .error er => .error er)
  else (false, .ok e)

/-- The per-key closure of `ExtensionSchemaAnnotation.UnmarshalRestLi`:
dispatch through `UnmarshalField`, skip the value when the key was not
recognized. -/
def ExtensionSchemaAnnotation.unmarshalFieldCb :
    ExtensionSchemaAnnotation → String → WireValue → Except String ExtensionSchemaAnnotation :=
  fun e field v =>
    match e.UnmarshalFieldM field v with
    | (found, r) =>
        match r with
        | .error er => .error er
        | .ok e' =>
            if found then .ok e'
            else
              match SkipValue v with
              | .ok _ => .ok e'
              | .error er => .error er

/-- `ExtensionSchemaAnnotation.UnmarshalRestLi` from the generated source:
read the keyed structure, dispatch each key through `UnmarshalField`, skip
the value when the key was not recognized. -/
def ExtensionSchemaAnnotation.UnmarshalRestLi (e : ExtensionSchemaAnnotation)
    (entries : List (String × WireValue)) : Except String ExtensionSchemaAnnotation :=
  ReadRecord ExtensionSchemaAnnotationRequiredFields ExtensionSchemaAnnotation.unmarshalFieldCb e entries

/-! ## ExtensionSchemaAnnotation partial update -/

structure ExtensionSchemaAnnotation_PartialUpdate_Delete_Fields where
  Using : Bool := false
  Params : Bool := false
  VersionSuffix : Bool := false
deriving DecidableEq

/-- The `$delete` array writer from the generated source: present names in
the order params, using, versionSuffix. -/
def ExtensionSchemaAnnotation_PartialUpdate_Delete_Fields.MarshalRestLi
    (d : ExtensionSchemaAnnotation_PartialUpdate_Delete_Fields) : WireValue :=
  .arr ((if d.Params then [WireValue.str "params"] else []) ++
        (if d.Using then [WireValue.str "using"] else []) ++
        (if d.VersionSuffix then [WireValue.str "versionSuffix"] else []))

def ExtensionSchemaAnnotation_PartialUpdate_Delete_Fields.applyName
    (d : ExtensionSchemaAnnotation_PartialUpdate_Delete_Fields) (s : String) :
    ExtensionSchemaAnnotation_PartialUpdate_Delete_Fields :=
  if s = "using" then { d with Using := true }
  else if s = "params" then { d with Params := true }
  else if s = "versionSuffix" then { d with VersionSuffix := true }
  else d

def ExtensionSchemaAnnotation_PartialUpdate_Delete_Fields.unmarshalItems
    (d : ExtensionSchemaAnnotation_PartialUpdate_Delete_Fields) :
    List WireValue → Except String ExtensionSchemaAnnotation_PartialUpdate_Delete_Fields
  | [] => .ok d
  | v :: rest =>
      match ReadString v with
      | .error e => .error e
      | .ok s => (d.applyName s).unmarshalItems rest

/-- The `$delete` array reader from the generated source: each item is a
string, recognized names toggle the flag, unknown names are ignored. -/
def ExtensionSchemaAnnotation_PartialUpdate_Delete_Fields.UnmarshalRestLi
    (d : ExtensionSchemaAnnotation_PartialUpdate_Delete_Fields) :
    WireValue → Except String ExtensionSchemaAnnotation_PartialUpdate_Delete_Fields
  | .arr items => d.unmarshalItems items
  | _ => .error "go-restli: value is not an array"

structure ExtensionSchemaAnnotation_PartialUpdate_Set_Fields where
  Using : Option String := none
  Params : Option (List (String × String)) := none
  VersionSuffix : Option String := none
deriving DecidableEq

/-- The `$set` section writer from the generated source: present fields in
the order params, using, versionSuffix. -/
def ExtensionSchemaAnnotation_PartialUpdate_Set_Fields.MarshalRestLi
    (s : ExtensionSchemaAnnotation_PartialUpdate_Set_Fields) : WireValue :=
  .map ((match s.Params with
         | some m => [("params", WireValue.map (m.map (fun kv => (kv.1, WireValue.str kv.2))))]
         | none => []) ++
        (match s.Using with
         | some u => [("using", WireValue.str u)]
         | none => []) ++
        (match s.VersionSuffix with
         | some v => [("versionSuffix", WireValue.str v)]
         | none => []))

def ExtensionSchemaAnnotation_PartialUpdate_Set_Fields.UnmarshalFieldM
    (e : ExtensionSchemaAnnotation_PartialUpdate_Set_Fields) (field : String) (v : WireValue) :
    Bool × Except String ExtensionSchemaAnnotation_PartialUpdate_Set_Fields :=
  if field = "using" then
    (true, match ReadString v with
           | .ok s => .ok { e with Using := some s }
           | .error er => .error er)
  else if field = "params" then
    (true, match ReadStringMap v with
           | .ok m => .ok { e with Params := some m }
           | .error er => .error er)
  else if field = "versionSuffix" then
    (true, match ReadString v with
           | .ok s => .ok { e with VersionSuffix := some s }
           | .error er => .error er)
  else (false, .ok e)

/-- The `$set` section reader from the generated source, a record read with
no required fields. -/
def ExtensionSchemaAnnotation_PartialUpdate_Set_Fields.UnmarshalRestLi
    (e : ExtensionSchemaAnnotation_PartialUpdate_Set_Fields) :
    WireValue → Except String ExtensionSchemaAnnotation_PartialUpdate_Set_Fields
  | .map entries =>
      ReadRecord []
        (fun e field v =>
          match e.UnmarshalFieldM field v with
          | (found, r) =>
              match r with
              | .error er => .error er
              | .ok e' =>
                  if found then .ok e'
                  else
                    match SkipValue v with
                    | .ok _ => .ok e'
                    | .error er => .error er)
        e entries
  | _ => .error "go-restli: value is not a map"

/-- Modelled from the spec: `patch.PartialUpdateFieldChecker` tracks whether
any field was deleted or set and rejects a field present in both halves with
an error naming the record type and the field. -/
structure PartialUpdateFieldChecker where
  RecordType : String
  HasDeletes : Bool := false
  HasSets : Bool := false

def checkFieldMsg (recordType field : String) : String :=
  "go-restli: field \"" ++ field ++ "\" of \"" ++ recordType ++
    "\" cannot be both deleted and set in the same partial update"

/-- Modelled from the spec: `checker.CheckField(_, field, isDeleted, isSet, _)`
(the final argument of the Go method concerns nested partial updates and is
`false` at every call site here). -/
def PartialUpdateFieldChecker.CheckField (c : PartialUpdateFieldChecker)
    (field : String) (isDeleted isSet : Bool) : Except String PartialUpdateFieldChecker :=
  if isDeleted && isSet then .error (checkFieldMsg c.RecordType field)
  else .ok { c with HasDeletes := c.HasDeletes || isDeleted, HasSets := c.HasSets || isSet }

def esaRecordType : String := "com.linkedin.restli.common.ExtensionSchemaAnnotation"

structure ExtensionSchemaAnnotation_PartialUpdate where
  Delete_Fields : ExtensionSchemaAnnotation_PartialUpdate_Delete_Fields := {}
  Set_Fields : ExtensionSchemaAnnotation_PartialUpdate_Set_Fields := {}
deriving DecidableEq

/-- The three `checker.CheckField` calls shared verbatim by
`MarshalRestLiPatch` and `UnmarshalRestLiPatch` in the generated source, in
declaration order using, params, versionSuffix. -/
def ExtensionSchemaAnnotation_PartialUpdate.runChecker
    (p : ExtensionSchemaAnnotation_PartialUpdate) : Except String PartialUpdateFieldChecker :=
  match PartialUpdateFieldChecker.CheckField { RecordType := esaRecordType }
      "using" p.Delete_Fields.Using p.Set_Fields.Using.isSome with
  | .error e => .error e
  | .ok c =>
      match c.CheckField "params" p.Delete_Fields.Params p.Set_Fields.Params.isSome with
      | .error e => .error e
      | .ok c =>
          match c.CheckField "versionSuffix" p.Delete_Fields.VersionSuffix p.Set_Fields.VersionSuffix.isSome with
          | .error e => .error e
          | .ok c => .ok c

/-- `ExtensionSchemaAnnotation_PartialUpdate.MarshalRestLiPatch` from the
generated source: validate every field with the checker, then emit the
`$delete` and `$set` sections only when non-empty, in that order. -/
def ExtensionSchemaAnnotation_PartialUpdate.MarshalRestLiPatch
    (p : ExtensionSchemaAnnotation_PartialUpdate) : Except String WireValue :=
  match p.runChecker with
  | .error e => .error e
  | .ok c =>
      .ok (.map ((if c.HasDeletes then [("$delete", p.Delete_Fields.MarshalRestLi)] else []) ++
                 (if c.HasSets then [("$set", p.Set_Fields.MarshalRestLi)] else [])))

/-- The `ReadMap` phase of `UnmarshalRestLiPatch`: `$delete` and `$set` are
read into their sections, any other key is skipped. -/
def ExtensionSchemaAnnotation_PartialUpdate.readPatchSections
    (p : ExtensionSchemaAnnotation_PartialUpdate) :
    List (String × WireValue) → Except String ExtensionSchemaAnnotation_PartialUpdate
  | [] => .ok p
  | kv :: rest =>
      let step : Except String ExtensionSchemaAnnotation_PartialUpdate :=
        if kv.1 = "$delete" then
          match p.Delete_Fields.UnmarshalRestLi kv.2 with
          | .ok d => .ok { p with Delete_Fields := d }
          | .error e => .error e
        else if kv.1 = "$set" then
          match p.Set_Fields.UnmarshalRestLi kv.2 with
          | .ok s => .ok { p with Set_Fields := s }
          | .error e => .error e
        else
          match SkipValue kv.2 with
          | .ok _ => .ok p
          | .error e => .error e
      match step with
      | .error e => .error e
      | .ok p' => p'.readPatchSections rest

/-- `ExtensionSchemaAnnotation_PartialUpdate.UnmarshalRestLiPatch` from the
generated source: read the sections, then run the same checker over the
result. -/
def ExtensionSchemaAnnotation_PartialUpdate.UnmarshalRestLiPatch
    (p : ExtensionSchemaAnnotation_PartialUpdate) (entries : List (String × WireValue)) :
    Except String ExtensionSchemaAnnotation_PartialUpdate :=
  match p.readPatchSections entries with
  | .error e => .error e
  | .ok p' =>
      match p'.runChecker with
      | .error e => .error e
      | .ok _ => .ok p'

/-- The first field (in the checker's order using, params, versionSuffix)
present in both the Delete and the Set half of a patch value. -/
def ExtensionSchemaAnnotation_PartialUpdate.conflictField
    (p : ExtensionSchemaAnnotation_PartialUpdate) : Option String :=
  if p.Delete_Fields.Using && p.Set_Fields.Using.isSome then some "using"
  else if p.Delete_Fields.Params && p.Set_Fields.Params.isSome then some "params"
  else if p.Delete_Fields.VersionSuffix && p.Set_Fields.VersionSuffix.isSome then some "versionSuffix"
  else none

/-- Whether the `$delete` section of a patch value is non-empty. -/
def ExtensionSchemaAnnotation_PartialUpdate.hasDeletes
    (p : ExtensionSchemaAnnotation_PartialUpdate) : Bool :=
  p.Delete_Fields.Using || p.Delete_Fields.Params || p.Delete_Fields.VersionSuffix

/-- Whether the `$set` section of a patch value is non-empty. -/
def ExtensionSchemaAnnotation_PartialUpdate.hasSets
    (p : ExtensionSchemaAnnotation_PartialUpdate) : Bool :=
  p.Set_Fields.Using.isSome || p.Set_Fields.Params.isSome || p.Set_Fields.VersionSuffix.isSome

/-! ## Concrete scenarios

Small registries exercising the claims, each built through `Register` (and,
where a claim speaks about the state after the flagging stage, through
`setCyclic`). -/

def idA : Identifier := { Name := "A", Namespace := "pkg1" }
def idB : Identifier := { Name := "B", Namespace := "pkg1" }

/-- The spec's example scenario: `pkg1.A` and `pkg1.B` referencing each
other, registered in one package root. -/
def regSameNs : typeRegistry :=
  ((emptyRegistry.Register { id := idA, innerTypes := [idB] } "root1").1.Register
    { id := idB, innerTypes := [idA] } "root1").1

def idA1 : Identifier := { Name := "A", Namespace := "pkg1.x" }
def idB1 : Identifier := { Name := "B", Namespace := "pkg1.y" }
def idD1 : Identifier := { Name := "D", Namespace := "other" }
def idE1 : Identifier := { Name := "E", Namespace := "pkg1.z" }

/-- A cycle between two namespaces of one package root (`pkg1.x.A` and
`pkg1.y.B`), with a same-root descendant `pkg1.z.E` and a descendant
`other.D` registered in a different package root. -/
def regTwoNs : typeRegistry :=
  ((((emptyRegistry.Register { id := idA1, innerTypes := [idB1] } "root1").1.Register
      { id := idB1, innerTypes := [idA1, idD1, idE1] } "root1").1.Register
      { id := idD1, innerTypes := [] } "root2").1.Register
      { id := idE1, innerTypes := [] } "root1").1

def idA2 : Identifier := { Name := "A", Namespace := "n1" }
def idB2 : Identifier := { Name := "B", Namespace := "n2" }
def idC2 : Identifier := { Name := "C", Namespace := "n1" }

/-- An acyclic graph `n1.A -> n2.B -> n1.C` whose namespaces bounce out of
and back into `n1`, all in one package root. -/
def regAcyclicBounce : typeRegistry :=
  (((emptyRegistry.Register { id := idA2, innerTypes := [idB2] } "r").1.Register
     { id := idB2, innerTypes := [idC2] } "r").1.Register
     { id := idC2, innerTypes := [] } "r").1

def idA4 : Identifier := { Name := "A", Namespace := "pkg1" }
def idB4 : Identifier := { Name := "B", Namespace := "pkg2" }

/-- The spec's cross-root scenario: `pkg1.A` and `pkg2.B` referencing each
other, registered in different package roots. -/
def regCrossRoot : typeRegistry :=
  ((emptyRegistry.Register { id := idA4, innerTypes := [idB4] } "r1").1.Register
    { id := idB4, innerTypes := [idA4] } "r2").1

def idX1 : Identifier := { Name := "Z", Namespace := "a.xy" }
def idX2 : Identifier := { Name := "z", Namespace := "b" }
def idY1 : Identifier := { Name := "yZ", Namespace := "a.x" }
def idY2 : Identifier := { Name := "YZ", Namespace := "c" }

/-- Four cyclic types in one package root forming two case-folded-name
groups, `z` = {a.xy.Z, b.z} and `yz` = {a.x.yZ, c.YZ}; the overrides of
`a.xy.Z` and `a.x.yZ` both come out as `XyZ` although they sit in different
groups. -/
def regCrossGroup : typeRegistry :=
  let base :=
    ((((emptyRegistry.Register { id := idX1, innerTypes := [] } "root1").1.Register
        { id := idX2, innerTypes := [] } "root1").1.Register
        { id := idY1, innerTypes := [] } "root1").1.Register
        { id := idY2, innerTypes := [] } "root1").1
  (((base.setCyclic idX1).setCyclic idX2).setCyclic idY1).setCyclic idY2

def idZ1 : Identifier := { Name := "foo", Namespace := "x.ab" }
def idZ2 : Identifier := { Name := "foo", Namespace := "y.ab" }

/-- Two cyclic types in one case-folded-name group whose computed overrides
collide (`x.ab.foo` and `y.ab.foo` both map to `Abfoo`). -/
def regGroupClash : typeRegistry :=
  let base :=
    ((emptyRegistry.Register { id := idZ1, innerTypes := [] } "root1").1.Register
      { id := idZ2, innerTypes := [] } "root1").1
  (base.setCyclic idZ1).setCyclic idZ2

def idW1 : Identifier := { Name := "bar", Namespace := "m.u" }
def idW2 : Identifier := { Name := "Bar", Namespace := "m.v" }

/-- Two cyclic types in one case-folded-name group whose computed overrides
differ (`Ubar` and `VBar`). -/
def regGroupOk : typeRegistry :=
  let base :=
    ((emptyRegistry.Register { id := idW1, innerTypes := [] } "root1").1.Register
      { id := idW2, innerTypes := [] } "root1").1
  (base.setCyclic idW1).setCyclic idW2

def idDangling : Identifier := { Name := "Ghost", Namespace := "pkg1" }

/-- A registry whose single type references an identifier that was never
registered. -/
def regDangling : typeRegistry :=
  (emptyRegistry.Register { id := idA, innerTypes := [idDangling] } "root1").1

/-- The expected outcome of `Finalize` on `regTwoNs`: the members of the
two-namespace cycle and the same-root descendant flagged, nothing else
changed. -/
def regTwoNsFlagged : typeRegistry :=
  ((regTwoNs.setCyclic idA1).setCyclic idB1).setCyclic idE1

/-- The expected outcome of remediation on `regCrossGroup`: all four members
renamed, `a.xy.Z` and `a.x.yZ` to the same `XyZ`. -/
def regCrossGroupOut : typeRegistry :=
  (((regCrossGroup.setOverride idX1 "XyZ").setOverride idX2 "Bz").setOverride
      idY1 "XyZ").setOverride idY2 "CYZ"

/-- The expected outcome of remediation on `regGroupOk`. -/
def regGroupOkOut : typeRegistry :=
  (regGroupOk.setOverride idW1 "Ubar").setOverride idW2 "VBar"

/-- A second registration attempt for `pkg1.A`, with a different descriptor
and package root. -/
def ctDup : ComplexType := { id := idA, innerTypes := [idB, idDangling] }

/-- The entry `regSameNs` stores for `pkg1.A`. -/
def rtA : registeredType := { Typ := { id := idA, innerTypes := [idB] }, PackageRoot := "root1" }

/-- A patch value deleting and setting the field `using` at once. -/
def patchConflict : ExtensionSchemaAnnotation_PartialUpdate :=
  { Delete_Fields := { Using := true }, Set_Fields := { Using := some "g" } }

/-- Wire input whose sections delete and set the field `using` at once. -/
def patchEntriesConflict : List (String × WireValue) :=
  [("$delete", .arr [.str "using"]), ("$set", .map [("using", .str "g")])]

/-- Wire input made only of unrecognized keys. -/
def unknownEntries : List (String × WireValue) :=
  [("zzz", WireValue.str "1"), ("qqq", WireValue.arr [])]

/-! ## Derived notions used by the claims -/

/-- Completeness of a registry: every inner type of every stored entry is
itself registered (the property `validateAllTypesSatisfied` checks). -/
def RegValidated (reg : typeRegistry) : Prop :=
  ∀ p ∈ reg.types, ∀ dep ∈ p.2.Typ.innerTypes, reg.isRegistered dep = true

/-- Reachability along inner-type sets. -/
inductive Reach (reg : typeRegistry) (a : Identifier) : Identifier → Prop where
  | direct : ∀ b, b ∈ reg.innerOf a → Reach reg a b
  | step : ∀ b c, Reach reg a b → c ∈ reg.innerOf b → Reach reg a c

/-- The number of registered, not-yet-cyclic entries: the variant of the
cycle-flagging loop. -/
def countNonCyclic : List (Identifier × registeredType) → Nat
  | [] => 0
  | p :: rest => (if p.2.IsCyclic then 0 else 1) + countNonCyclic rest

def typeRegistry.nonCyclicCount (reg : typeRegistry) : Nat :=
  countNonCyclic reg.types

/-- Entrywise comparison for the flagging phase: the key and every field but
the cyclic flag are unchanged, and the flag only ever turns on. -/
def MonoEntry (p q : Identifier × registeredType) : Prop :=
  q.1 = p.1 ∧ q.2.Typ = p.2.Typ ∧ q.2.PackageRoot = p.2.PackageRoot ∧
    q.2.TypeNameOverride = p.2.TypeNameOverride ∧ q.2.IsCustomTyperef = p.2.IsCustomTyperef ∧
    (p.2.IsCyclic = true → q.2.IsCyclic = true)

/-- Registry evolution during the flagging phase. -/
def MonoReg (reg reg' : typeRegistry) : Prop :=
  List.Forall₂ MonoEntry reg.types reg'.types

/-! ## Supporting lemmas -/

theorem lookupTypes_append_of_none (l : List (Identifier × registeredType)) (i : Identifier)
    (rt : registeredType) (h : lookupTypes l i = none) :
    lookupTypes (l ++ [(i, rt)]) i = some rt := by
  induction l with
  | nil => simp [lookupTypes]
  | cons p rest ih =>
      rw [List.cons_append]
      rw [lookupTypes] at h ⊢
      by_cases hp : p.1 = i
      · rw [if_pos hp] at h
        exact absurd h (by simp)
      · rw [if_neg hp] at h ⊢
        exact ih h

/-! ## Claim C6 -/

/-- C6: for every registry state, registering a type whose Identifier is
already a key fails with the already-registered error, whatever the earlier
registration stored; registering a type with a fresh Identifier never fails
and stores it with IsCyclic = false (and no overrides). -/
theorem register_duplicate_fails_fresh_succeeds (reg : typeRegistry) (t : ComplexType)
    (root : String) :
    (∀ rt0, reg.lookupType t.id = some rt0 →
        reg.Register t root = (reg, some (alreadyRegisteredMsg t.id rt0.PackageRoot))) ∧
    (reg.lookupType t.id = none →
        (reg.Register t root).2 = none ∧
        (reg.Register t root).1.lookupType t.id =
          some { Typ := t, PackageRoot := root, IsCyclic := false,
                 TypeNameOverride := "", IsCustomTyperef := false }) := by
  constructor
  · intro rt0 h
    simp only [typeRegistry.Register, typeRegistry.lookupType] at h ⊢
    rw [h]
  · intro h
    have hr : reg.Register t root =
        ({ types := reg.types ++ [(t.id, { Typ := t, PackageRoot := root })],
           packageRoots := setRootMember reg.packageRoots root t.id }, none) := by
      simp only [typeRegistry.Register, typeRegistry.lookupType] at h ⊢
      rw [h]
    rw [hr]
    exact ⟨rfl, lookupTypes_append_of_none reg.types t.id _ h⟩

/-- Witness for C6: a duplicate registration of `pkg1.A` into `regSameNs`
fails, and a fresh registration into the empty registry succeeds and stores
the type non-cyclic. -/
theorem register_duplicate_fails_fresh_succeeds_witness :
    (regSameNs.Register ctDup "otherRoot" = (regSameNs, some (alreadyRegisteredMsg idA rtA.PackageRoot))) ∧
    ((emptyRegistry.Register { id := idA, innerTypes := [] } "root1").2 = none ∧
      (emptyRegistry.Register { id := idA, innerTypes := [] } "root1").1.lookupType idA =
        some { Typ := { id := idA, innerTypes := [] }, PackageRoot := "root1", IsCyclic := false,
               TypeNameOverride := "", IsCustomTyperef := false }) :=
  ⟨(register_duplicate_fails_fresh_succeeds regSameNs ctDup "otherRoot").1 rtA (by decide),
   (register_duplicate_fails_fresh_succeeds emptyRegistry { id := idA, innerTypes := [] } "root1").2
      (by decide)⟩

/-! ## Claim C10 -/

/-- C10: Register is atomic on failure: when the type's Identifier is already
registered, the failing call returns the registry completely unchanged — in
particular the existing entry and the package-root sets are intact, so the
first registration wins. -/
theorem register_failure_atomic (reg : typeRegistry) (t : ComplexType) (root : String)
    (rt0 : registeredType) (h : reg.lookupType t.id = some rt0) :
    reg.Register t root = (reg, some (alreadyRegisteredMsg t.id rt0.PackageRoot)) ∧
    (reg.Register t root).1 = reg ∧
    (reg.Register t root).1.lookupType t.id = some rt0 ∧
    (reg.Register t root).1.packageRoots = reg.packageRoots := by
  have hr : reg.Register t root = (reg, some (alreadyRegisteredMsg t.id rt0.PackageRoot)) := by
    simp only [typeRegistry.Register, typeRegistry.lookupType] at h ⊢
    rw [h]
  rw [hr]
  exact ⟨rfl, rfl, h, rfl⟩

/-- Witness for C10: re-registering `pkg1.A` into `regSameNs` under another
package root leaves the registry untouched. -/
theorem register_failure_atomic_witness :
    regSameNs.Register ctDup "otherRoot" = (regSameNs, some (alreadyRegisteredMsg idA rtA.PackageRoot)) ∧
    (regSameNs.Register ctDup "otherRoot").1 = regSameNs :=
  ⟨(register_failure_atomic regSameNs ctDup "otherRoot" rtA (by decide)).1,
   (register_failure_atomic regSameNs ctDup "otherRoot" rtA (by decide)).2.1⟩

/-! ## Claim C1 -/

/-- Counterexample to C1: the claim's own example scenario fails on the code.
`pkg1.A` and `pkg1.B` reference each other inside one package root, the run
succeeds — but neither ends with IsCyclic = true: the cycle search never
reports a chain confined to a single namespace, so `Finalize` returns the
registry unchanged. -/
theorem same_namespace_cycle_left_unflagged :
    regSameNs.Finalize = some (.ok regSameNs) ∧
    idB ∈ regSameNs.innerOf idA ∧
    idA ∈ regSameNs.innerOf idB ∧
    regSameNs.PackageRootOf idA = regSameNs.PackageRootOf idB ∧
    regSameNs.IsCyclic idA = false ∧
    regSameNs.IsCyclic idB = false := by
  refine ⟨rfl, ?_, ?_, rfl, rfl, rfl⟩ <;> decide

/-! ## Claim C2 (counterexample) -/

/-- Counterexample to C2: `findCycle` is not the on-stack-node re-entry test.
On the acyclic graph `n1.A -> n2.B -> n1.C` it reports the chain
`[A, B, C]` — a chain without any repeated node, so not a segment between two
occurrences of one node — and on the genuine two-node cycle
`pkg1.A ↔ pkg1.B` it reports nothing although the traversal re-enters a node
on its stack. -/
theorem findCycle_not_node_reentry :
    regAcyclicBounce.findCycleD idA2 [] = some [idA2, idB2, idC2] ∧
    [idA2, idB2, idC2].Nodup ∧
    regAcyclicBounce.innerOf idC2 = [] ∧
    regSameNs.findCycleD idA [] = some [] ∧
    idB ∈ regSameNs.innerOf idA ∧
    idA ∈ regSameNs.innerOf idB := by
  refine ⟨rfl, ?_, rfl, rfl, ?_, ?_⟩ <;> decide

/-! ## Claim C3 -/

/-- Counterexample to C3: two distinct cyclic Identifiers of the same package
root (`a.xy.Z` and `a.x.yZ`) compute the same override `XyZ`, yet remediation
succeeds, because the collision check is scoped to one case-folded-name group
and the two sit in different groups. -/
theorem cross_group_override_collision_tolerated :
    regCrossGroup.remediateConflictingNames = .ok regCrossGroupOut ∧
    regCrossGroupOut.TypeNameOverrideOf idX1 = "XyZ" ∧
    regCrossGroupOut.TypeNameOverrideOf idY1 = "XyZ" ∧
    overrideFor idX1 = overrideFor idY1 ∧
    idX1 ≠ idY1 ∧
    regCrossGroup.PackageRootOf idX1 = regCrossGroup.PackageRootOf idY1 ∧
    regCrossGroup.IsCyclic idX1 = true ∧
    regCrossGroup.IsCyclic idY1 = true := by
  decide

/-! ## Claim C4 -/

/-- C4: whenever, at any state of the run, the cycle search at the current
start node reports a chain whose members span more than one package root, the
rest of the `Finalize` run aborts with the error carrying the chain's full
names joined in traversal order; the cross-root chain is never flagged. -/
theorem cross_root_chain_aborts (reg : typeRegistry) (ids : List Identifier) (i : Identifier)
    (c : Identifier) (cs : List Identifier)
    (hval : reg.validateAllTypesSatisfied = .ok ())
    (hfind : reg.findCycleD i [] = some (c :: cs))
    (hroots : ((c :: cs).map reg.PackageRootOf).dedup.length > 1) :
    reg.FinalizeWith (i :: ids) = some (.error (crossRootMsg (c :: cs))) ∧
    crossRootMsg (c :: cs) =
      "go-restli: The following cyclic dependency between packages was detected but " ++
        "cannot be remediated due to type definitions being in different manifests: " ++
        String.intercalate " -> " ((c :: cs).map Identifier.FullName) := by
  have hloop : flagLoopF reg.loopFuel reg i = some (.error (crossRootMsg (c :: cs))) := by
    show flagLoopF (reg.types.length + 1) reg i = _
    rw [flagLoopF, hfind]
    dsimp only
    rw [if_pos hroots]
  have hdeps : flagCyclicDependenciesF reg (i :: ids) = some (.error (crossRootMsg (c :: cs))) := by
    rw [flagCyclicDependenciesF, hloop]
  constructor
  · rw [typeRegistry.FinalizeWith, hval, hdeps]
  · rfl

/-- Witness for C4: the spec's own scenario, `pkg1.A` in root `r1` and
`pkg2.B` in root `r2` referencing each other, aborts with the chain
`pkg1.A -> pkg2.B -> pkg1.A`. -/
theorem cross_root_chain_aborts_witness :
    regCrossRoot.FinalizeWith [idA4, idB4] = some (.error (crossRootMsg [idA4, idB4, idA4])) ∧
    crossRootMsg [idA4, idB4, idA4] =
      "go-restli: The following cyclic dependency between packages was detected but " ++
        "cannot be remediated due to type definitions being in different manifests: " ++
        "pkg1.A -> pkg2.B -> pkg1.A" :=
  ⟨(cross_root_chain_aborts regCrossRoot [idB4] idA4 idA4 [idB4, idA4]
      (by decide) (by decide) (by decide)).1,
   by decide⟩

/-! ## Claim C7 -/

/-- The checker pass of the generated patch codec, characterized: it fails
with the message naming the record type and the first conflicting field, and
otherwise reports whether either section is non-empty. -/
theorem runChecker_eq (p : ExtensionSchemaAnnotation_PartialUpdate) :
    p.runChecker =
      match p.conflictField with
      | some f => .error (checkFieldMsg esaRecordType f)
      | none => .ok { RecordType := esaRecordType, HasDeletes := p.hasDeletes, HasSets := p.hasSets } := by
  rcases p with ⟨⟨du, dp, dv⟩, ⟨su, sp, sv⟩⟩
  cases du <;> cases dp <;> cases dv <;> cases su <;> cases sp <;> cases sv <;> rfl

/-- C7: a field present in both the Delete and the Set half makes both the
patch marshaller and the patch unmarshaller fail with the checker error
naming the record type and the field; without such a field, marshalling
emits only the non-empty `$delete`/`$set` sections, and the entirely empty
patch marshals to an empty structure and unmarshals from one. -/
theorem patch_delete_set_exclusion (p q : ExtensionSchemaAnnotation_PartialUpdate)
    (entries : List (String × WireValue)) :
    (∀ f, p.conflictField = some f →
       p.MarshalRestLiPatch = .error (checkFieldMsg esaRecordType f)) ∧
    (p.conflictField = none →
       p.MarshalRestLiPatch = .ok (.map
         ((if p.hasDeletes then [("$delete", p.Delete_Fields.MarshalRestLi)] else []) ++
          (if p.hasSets then [("$set", p.Set_Fields.MarshalRestLi)] else [])))) ∧
    (∀ f, p.readPatchSections entries = .ok q → q.conflictField = some f →
       p.UnmarshalRestLiPatch entries = .error (checkFieldMsg esaRecordType f)) ∧
    (p.readPatchSections entries = .ok q → q.conflictField = none →
       p.UnmarshalRestLiPatch entries = .ok q) ∧
    (ExtensionSchemaAnnotation_PartialUpdate.MarshalRestLiPatch {} = .ok (.map [])) ∧
    (ExtensionSchemaAnnotation_PartialUpdate.UnmarshalRestLiPatch {} [] = .ok {}) := by
  refine ⟨?_, ?_, ?_, ?_, rfl, rfl⟩
  · intro f hf
    rw [ExtensionSchemaAnnotation_PartialUpdate.MarshalRestLiPatch, runChecker_eq, hf]
  · intro hf
    rw [ExtensionSchemaAnnotation_PartialUpdate.MarshalRestLiPatch, runChecker_eq, hf]
  · intro f hr hf
    rw [ExtensionSchemaAnnotation_PartialUpdate.UnmarshalRestLiPatch, hr]
    dsimp only
    rw [runChecker_eq, hf]
  · intro hr hf
    rw [ExtensionSchemaAnnotation_PartialUpdate.UnmarshalRestLiPatch, hr]
    dsimp only
    rw [runChecker_eq, hf]

/-- Witness for C7: marshalling the conflicted patch value and unmarshalling
the conflicted wire input both fail with the checker error naming `using`. -/
theorem patch_delete_set_exclusion_witness :
    patchConflict.MarshalRestLiPatch = .error (checkFieldMsg esaRecordType "using") ∧
    ExtensionSchemaAnnotation_PartialUpdate.UnmarshalRestLiPatch {} patchEntriesConflict =
      .error (checkFieldMsg esaRecordType "using") :=
  ⟨(patch_delete_set_exclusion patchConflict patchConflict []).1 "using" rfl,
   (patch_delete_set_exclusion {} patchConflict patchEntriesConflict).2.2.1 "using"
      (by decide) rfl⟩

/-! ## Claim C8 -/

theorem readStringMapEntries_of_map (m : List (String × String)) :
    ReadStringMapEntries (m.map (fun kv => (kv.1, WireValue.str kv.2))) = .ok m := by
  induction m with
  | nil => rfl
  | cons kv rest ih =>
      simp only [List.map_cons, ReadStringMapEntries, ReadString, ih]

theorem readFields_esa_unknown (entries : List (String × WireValue)) :
    ∀ e0 : ExtensionSchemaAnnotation,
      (∀ kv ∈ entries, kv.1 ≠ "using" ∧ kv.1 ≠ "params" ∧ kv.1 ≠ "versionSuffix") →
      readFields ExtensionSchemaAnnotation.unmarshalFieldCb e0 entries = .ok e0 := by
  induction entries with
  | nil => intro e0 _; rfl
  | cons kv rest ih =>
      intro e0 h
      have hk := h kv (List.mem_cons_self _ _)
      have hcb : ExtensionSchemaAnnotation.unmarshalFieldCb e0 kv.1 kv.2 = .ok e0 := by
        simp only [ ExtensionSchemaAnnotation.unmarshalFieldCb,
          ExtensionSchemaAnnotation.UnmarshalFieldM, if_neg hk.1, if_neg hk.2.1, if_neg hk.2.2]
        rfl
      rw [readFields, hcb]
      exact ih e0 (fun kv hkv => h kv (List.mem_cons_of_mem _ hkv))

theorem mem_missingRequired (required : List String) (entries : List (String × WireValue))
    (f : String) :
    f ∈ missingRequired required entries ↔ f ∈ required ∧ ∀ kv ∈ entries, kv.1 ≠ f := by
  simp only [missingRequired, List.mem_filter, Bool.not_eq_true', List.any_eq_false, beq_iff_eq]

/-- C8: record unmarshalling dispatches each recognized key to its field
setter, skips every unrecognized key without error (an input of only
unknown keys succeeds and leaves the record as it was), and the record
reader fails with the error naming the missing fields exactly when some
required field is absent from the input's keys — for
ExtensionSchemaAnnotation the required-field set is empty. -/
theorem record_unmarshal_dispatch (e0 : ExtensionSchemaAnnotation)
    (entries : List (String × WireValue)) (u : String) :
    ((∀ kv ∈ entries, kv.1 ≠ "using" ∧ kv.1 ≠ "params" ∧ kv.1 ≠ "versionSuffix") →
       e0.UnmarshalRestLi entries = .ok e0) ∧
    (e0.UnmarshalRestLi [("using", WireValue.str u)] = .ok { e0 with Using := some u }) ∧
    (e0.UnmarshalRestLi [("versionSuffix", WireValue.str u)] = .ok { e0 with VersionSuffix := some u }) ∧
    (∀ m, e0.UnmarshalRestLi [("params", WireValue.map (m.map (fun kv => (kv.1, WireValue.str kv.2))))] =
       .ok { e0 with Params := some m }) ∧
    (ExtensionSchemaAnnotationRequiredFields = []) ∧
    (∀ (σ : Type) (required : List String) (cb : σ → String → WireValue → Except String σ)
        (init s' : σ), readFields cb init entries = .ok s' →
       ((missingRequired required entries = [] → ReadRecord required cb init entries = .ok s') ∧
        (∀ f ∈ required, (∀ kv ∈ entries, kv.1 ≠ f) →
           ReadRecord required cb init entries =
             .error (missingFieldsMsg (missingRequired required entries)) ∧
           f ∈ missingRequired required entries) ∧
        (missingRequired required entries = [] ↔ ∀ f ∈ required, ∃ kv ∈ entries, kv.1 = f))) := by
  refine ⟨?_, ?_, ?_, ?_, rfl, ?_⟩
  · intro h
    rw [ ExtensionSchemaAnnotation.UnmarshalRestLi, ReadRecord,
      readFields_esa_unknown entries e0 h]
    rfl
  · rfl
  · rfl
  · intro m
    rw [ ExtensionSchemaAnnotation.UnmarshalRestLi, ReadRecord]
    have : readFields ExtensionSchemaAnnotation.unmarshalFieldCb e0
        [("params", WireValue.map (m.map (fun kv => (kv.1, WireValue.str kv.2))))] =
        .ok { e0 with Params := some m } := by
      simp only [readFields, ExtensionSchemaAnnotation.unmarshalFieldCb,
        ExtensionSchemaAnnotation.UnmarshalFieldM, ReadStringMap, readStringMapEntries_of_map]
      rfl
    rw [this]
    rfl
  · intro σ required cb init s' hfields
    have hcover : ∀ f, f ∈ missingRequired required entries ↔
        f ∈ required ∧ ∀ kv ∈ entries, kv.1 ≠ f := fun f =>
      mem_missingRequired required entries f
    refine ⟨?_, ?_, ?_⟩
    · intro hm
      rw [ReadRecord, hfields, hm]
    · intro f hf habsent
      have hmem : f ∈ missingRequired required entries := (hcover f).mpr ⟨hf, habsent⟩
      have hne : missingRequired required entries ≠ [] := by
        intro h0
        rw [h0] at hmem
        exact absurd hmem (List.not_mem_nil f)
      constructor
      · cases hcase : missingRequired required entries with
        | nil => exact absurd hcase hne
        | cons g gs =>
            rw [ReadRecord, hfields, hcase]
      · exact hmem
    · constructor
      · intro hm f hf
        by_contra hnone
        push_neg at hnone
        have : f ∈ missingRequired required entries :=
          (hcover f).mpr ⟨hf, fun kv hkv => fun he => hnone kv hkv he⟩
        rw [hm] at this
        exact absurd this (List.not_mem_nil f)
      · intro hall
        by_contra hne
        obtain ⟨g, hg⟩ := List.exists_mem_of_ne_nil _ hne
        obtain ⟨hgr, habs⟩ := (hcover g).mp hg
        obtain ⟨kv, hkv, hkey⟩ := hall g hgr
        exact habs kv hkv hkey

/-- Witness for C8: an input of only unknown keys unmarshals successfully
into an unchanged record, and a reader with the required field `mand` absent
from the same input fails naming it. -/
theorem record_unmarshal_dispatch_witness :
    ( ExtensionSchemaAnnotation.UnmarshalRestLi {} unknownEntries = .ok {}) ∧
    (ReadRecord ["mand"] ExtensionSchemaAnnotation.unmarshalFieldCb
        ({} : ExtensionSchemaAnnotation) unknownEntries =
      .error (missingFieldsMsg ["mand"]) ∧
     "mand" ∈ missingRequired ["mand"] unknownEntries) := by
  have h := record_unmarshal_dispatch {} unknownEntries "u"
  refine ⟨h.1 (by decide), ?_⟩
  have h2 := (h.2.2.2.2.2 ExtensionSchemaAnnotation ["mand"]
      ExtensionSchemaAnnotation.unmarshalFieldCb {} {} (by decide)).2.1
      "mand" (by decide) (by decide)
  have hmr : missingRequired ["mand"] unknownEntries = ["mand"] := by decide
  rw [hmr] at h2
  exact h2

/-! ## Claim C5 -/

theorem lookupTypes_mem {l : List (Identifier × registeredType)} {i : Identifier}
    {rt : registeredType} (h : lookupTypes l i = some rt) : (i, rt) ∈ l := by
  induction l with
  | nil => exact absurd h (by simp [lookupTypes])
  | cons p rest ih =>
      rw [lookupTypes] at h
      by_cases hp : p.1 = i
      · rw [if_pos hp] at h
        have : p = (i, rt) := by
          obtain ⟨p1, p2⟩ := p
          simp only at hp
          simp only [Option.some.injEq] at h
          rw [hp, h]
        exact this ▸ List.mem_cons_self p rest
      · rw [if_neg hp] at h
        exact List.mem_cons_of_mem _ (ih h)

theorem firstMissing_none_iff (reg : typeRegistry) (ds : List Identifier) :
    firstMissing reg ds = none ↔ ∀ d ∈ ds, reg.isRegistered d = true := by
  induction ds with
  | nil => simp [firstMissing]
  | cons d rest ih =>
      rw [firstMissing]
      by_cases hd : reg.isRegistered d
      · rw [if_pos hd]
        simp only [List.mem_cons]
        constructor
        · intro h x hx
          rcases hx with hx | hx
          · rw [hx]; exact hd
          · exact (ih.mp h) x hx
        · intro h
          exact ih.mpr (fun x hx => h x (Or.inr hx))
      · rw [if_neg hd]
        simp only [List.mem_cons]
        constructor
        · intro h; exact absurd h (by simp)
        · intro h
          exact absurd (h d (Or.inl rfl)) hd

theorem firstMissing_some (reg : typeRegistry) (ds : List Identifier) (d : Identifier)
    (h : firstMissing reg ds = some d) : d ∈ ds ∧ reg.isRegistered d = false := by
  induction ds with
  | nil => exact absurd h (by simp [firstMissing])
  | cons x rest ih =>
      rw [firstMissing] at h
      by_cases hx : reg.isRegistered x
      · rw [if_pos hx] at h
        obtain ⟨hmem, hreg⟩ := ih h
        exact ⟨List.mem_cons_of_mem _ hmem, hreg⟩
      · rw [if_neg hx] at h
        simp only [Option.some.injEq] at h
        subst h
        exact ⟨List.mem_cons_self _ _, Bool.eq_false_iff.mpr hx⟩

theorem validateTypes_ok_iff (reg : typeRegistry) (l : List (Identifier × registeredType)) :
    validateTypes reg l = .ok () ↔
      ∀ p ∈ l, ∀ dep ∈ p.2.Typ.innerTypes, reg.isRegistered dep = true := by
  induction l with
  | nil => simp [validateTypes]
  | cons p rest ih =>
      rw [validateTypes]
      cases hfm : firstMissing reg p.2.Typ.innerTypes with
      | some dep =>
          simp only [List.mem_cons]
          constructor
          · intro h; exact absurd h (by simp)
          · intro h
            obtain ⟨hmem, hreg⟩ := firstMissing_some reg _ dep hfm
            have := h p (Or.inl rfl) dep hmem
            rw [this] at hreg
            exact absurd hreg (by simp)
      | none =>
          simp only [List.mem_cons]
          constructor
          · intro h q hq dep hdep
            rcases hq with hq | hq
            · subst hq
              exact (firstMissing_none_iff reg _).mp hfm dep hdep
            · exact ih.mp h q hq dep hdep
          · intro h
            exact ih.mpr (fun q hq => h q (Or.inr hq))

theorem validateTypes_error (reg : typeRegistry) (l : List (Identifier × registeredType))
    (e : String) (h : validateTypes reg l = .error e) :
    ∃ p ∈ l, ∃ dep ∈ p.2.Typ.innerTypes,
      reg.isRegistered dep = false ∧ e = unsatisfiedMsg p.1 dep := by
  induction l with
  | nil => exact absurd h (by simp [validateTypes])
  | cons p rest ih =>
      rw [validateTypes] at h
      cases hfm : firstMissing reg p.2.Typ.innerTypes with
      | some dep =>
          rw [hfm] at h
          simp only [Except.error.injEq] at h
          obtain ⟨hmem, hreg⟩ := firstMissing_some reg _ dep hfm
          exact ⟨p, List.mem_cons_self _ _, dep, hmem, hreg, h.symm⟩
      | none =>
          rw [hfm] at h
          obtain ⟨q, hq, dep, hdep, hreg, he⟩ := ih h
          exact ⟨q, List.mem_cons_of_mem _ hq, dep, hdep, hreg, he⟩

theorem reach_registered (reg : typeRegistry) (hv : RegValidated reg) :
    ∀ a b, Reach reg a b → reg.isRegistered a = true → reg.isRegistered b = true := by
  intro a b hreach
  induction hreach with
  | direct b hb =>
      intro ha
      cases hrt : reg.lookupType a with
      | none => simp [typeRegistry.isRegistered, hrt] at ha
      | some rt =>
          have hmem : (a, rt) ∈ reg.types := lookupTypes_mem hrt
          have hb' : b ∈ rt.Typ.innerTypes := by
            rw [typeRegistry.innerOf, hrt] at hb
            exact hb
          exact hv (a, rt) hmem b hb'
  | step b c hab hcb ih =>
      intro ha
      have hbreg := ih ha
      cases hrt : reg.lookupType b with
      | none => simp [typeRegistry.isRegistered, hrt] at hbreg
      | some rt =>
          have hmem : (b, rt) ∈ reg.types := lookupTypes_mem hrt
          have hc' : c ∈ rt.Typ.innerTypes := by
            rw [typeRegistry.innerOf, hrt] at hcb
            exact hcb
          exact hv (b, rt) hmem c hc'

/-- C5: `Finalize` validates completeness first — it succeeds exactly when
every inner type of every registered entry resolves, a validation failure
names the dependent and the missing dependency and is the run's result, a
cycle-stage failure is the run's result only after validation passed — and
after a successful run every identifier reachable through inner-type sets
from a registered identifier is itself registered. -/
theorem finalize_stage_order_and_completeness (reg : typeRegistry) (ids : List Identifier) :
    (reg.validateAllTypesSatisfied = .ok () ↔ RegValidated reg) ∧
    (∀ e, reg.validateAllTypesSatisfied = .error e →
       reg.FinalizeWith ids = some (.error e) ∧
       ∃ p ∈ reg.types, ∃ dep ∈ p.2.Typ.innerTypes,
         reg.isRegistered dep = false ∧ e = unsatisfiedMsg p.1 dep) ∧
    (∀ e, reg.validateAllTypesSatisfied = .ok () →
       flagCyclicDependenciesF reg ids = some (.error e) →
       reg.FinalizeWith ids = some (.error e)) ∧
    (∀ reg', reg.FinalizeWith ids = some (.ok reg') →
       reg.validateAllTypesSatisfied = .ok () ∧
       ∀ a b, Reach reg a b → reg.isRegistered a = true → reg.isRegistered b = true) := by
  refine ⟨validateTypes_ok_iff reg reg.types, ?_, ?_, ?_⟩
  · intro e he
    refine ⟨?_, validateTypes_error reg reg.types e he⟩
    rw [typeRegistry.FinalizeWith, he]
  · intro e hok hflag
    rw [typeRegistry.FinalizeWith, hok, hflag]
  · intro reg' h
    cases hval : reg.validateAllTypesSatisfied with
    | error e =>
        rw [typeRegistry.FinalizeWith, hval] at h
        simp at h
    | ok u =>
        cases u
        refine ⟨rfl, ?_⟩
        exact reach_registered reg ((validateTypes_ok_iff reg reg.types).mp hval)

/-- Witness for C5: the dangling registry fails validation (and the whole
run) with the error naming `pkg1.A` and `pkg1.Ghost`, while the complete
`regSameNs` validates. -/
theorem finalize_stage_order_and_completeness_witness :
    regDangling.FinalizeWith [idA] = some (.error (unsatisfiedMsg idA idDangling)) ∧
    RegValidated regSameNs :=
  ⟨((finalize_stage_order_and_completeness regDangling [idA]).2.1 _ (by decide)).1,
   (finalize_stage_order_and_completeness regSameNs []).1.mp (by decide)⟩

/-! ## Claim C9: monotone-evolution infrastructure for the flagging phase -/

theorem monoEntry_refl (p : Identifier × registeredType) : MonoEntry p p :=
  ⟨rfl, rfl, rfl, rfl, rfl, fun h => h⟩

theorem monoEntry_trans {p q r : Identifier × registeredType}
    (h1 : MonoEntry p q) (h2 : MonoEntry q r) : MonoEntry p r :=
  ⟨h2.1.trans h1.1, h2.2.1.trans h1.2.1, h2.2.2.1.trans h1.2.2.1,
   h2.2.2.2.1.trans h1.2.2.2.1, h2.2.2.2.2.1.trans h1.2.2.2.2.1,
   fun h => h2.2.2.2.2.2 (h1.2.2.2.2.2 h)⟩

theorem monoList_refl (l : List (Identifier × registeredType)) :
    List.Forall₂ MonoEntry l l := by
  induction l with
  | nil => exact List.Forall₂.nil
  | cons p rest ih => exact List.Forall₂.cons (monoEntry_refl p) ih

theorem monoReg_refl (reg : typeRegistry) : MonoReg reg reg :=
  monoList_refl reg.types

theorem monoList_trans {l1 l2 l3 : List (Identifier × registeredType)}
    (h1 : List.Forall₂ MonoEntry l1 l2) (h2 : List.Forall₂ MonoEntry l2 l3) :
    List.Forall₂ MonoEntry l1 l3 := by
  induction h1 generalizing l3 with
  | nil =>
      cases h2
      exact List.Forall₂.nil
  | cons hpq hrest ih =>
      cases h2 with
      | cons hqr hrest' => exact List.Forall₂.cons (monoEntry_trans hpq hqr) (ih hrest')

theorem monoReg_trans {r1 r2 r3 : typeRegistry} (h1 : MonoReg r1 r2) (h2 : MonoReg r2 r3) :
    MonoReg r1 r3 :=
  monoList_trans h1 h2

theorem lookup_monoList {l l' : List (Identifier × registeredType)}
    (h : List.Forall₂ MonoEntry l l') (i : Identifier) :
    (lookupTypes l i = none → lookupTypes l' i = none) ∧
    (∀ rt, lookupTypes l i = some rt → ∃ rt', lookupTypes l' i = some rt' ∧
       rt'.Typ = rt.Typ ∧ rt'.PackageRoot = rt.PackageRoot ∧
       (rt.IsCyclic = true → rt'.IsCyclic = true)) := by
  induction h with
  | nil => exact ⟨fun _ => rfl, fun rt h => absurd h (by simp [lookupTypes])⟩
  | cons hpq hrest ih =>
      rename_i p q l₀ l₀'
      constructor
      · intro hn
        rw [lookupTypes] at hn ⊢
        rw [hpq.1]
        by_cases hp : p.1 = i
        · rw [if_pos hp] at hn
          exact absurd hn (by simp)
        · rw [if_neg hp] at hn ⊢
          exact ih.1 hn
      · intro rt hs
        rw [lookupTypes] at hs ⊢
        rw [hpq.1]
        by_cases hp : p.1 = i
        · rw [if_pos hp] at hs ⊢
          simp only [Option.some.injEq] at hs
          subst hs
          exact ⟨q.2, rfl, hpq.2.1, hpq.2.2.1, hpq.2.2.2.2.2⟩
        · rw [if_neg hp] at hs ⊢
          exact ih.2 rt hs

theorem mono_isRegistered {reg reg' : typeRegistry} (h : MonoReg reg reg') (i : Identifier) :
    reg'.isRegistered i = reg.isRegistered i := by
  unfold typeRegistry.isRegistered typeRegistry.lookupType
  cases hl : lookupTypes reg.types i with
  | none => rw [(lookup_monoList h i).1 hl]
  | some rt =>
      obtain ⟨rt', hl', _⟩ := (lookup_monoList h i).2 rt hl
      rw [hl']
      rfl

theorem mono_innerOf {reg reg' : typeRegistry} (h : MonoReg reg reg') (i : Identifier) :
    reg'.innerOf i = reg.innerOf i := by
  unfold typeRegistry.innerOf typeRegistry.lookupType
  cases hl : lookupTypes reg.types i with
  | none => rw [(lookup_monoList h i).1 hl]
  | some rt =>
      obtain ⟨rt', hl', hTyp, _⟩ := (lookup_monoList h i).2 rt hl
      rw [hl']
      dsimp only
      rw [hTyp]

theorem mono_rootOf {reg reg' : typeRegistry} (h : MonoReg reg reg') (i : Identifier) :
    reg'.PackageRootOf i = reg.PackageRootOf i := by
  unfold typeRegistry.PackageRootOf typeRegistry.lookupType
  cases hl : lookupTypes reg.types i with
  | none => rw [(lookup_monoList h i).1 hl]
  | some rt =>
      obtain ⟨rt', hl', _, hroot, _⟩ := (lookup_monoList h i).2 rt hl
      rw [hl']
      dsimp only
      rw [hroot]

theorem mono_isCyclic {reg reg' : typeRegistry} (h : MonoReg reg reg') (i : Identifier)
    (hc : reg.IsCyclic i = true) : reg'.IsCyclic i = true := by
  unfold typeRegistry.IsCyclic typeRegistry.lookupType at hc ⊢
  cases hl : lookupTypes reg.types i with
  | none => rw [hl] at hc; exact absurd hc (by simp)
  | some rt =>
      rw [hl] at hc
      obtain ⟨rt', hl', _, _, hcyc⟩ := (lookup_monoList h i).2 rt hl
      rw [hl']
      exact hcyc hc

theorem mono_length {reg reg' : typeRegistry} (h : MonoReg reg reg') :
    reg'.types.length = reg.types.length :=
  (List.Forall₂.length_eq h).symm

theorem forall₂_mem_right {l l' : List (Identifier × registeredType)}
    (h : List.Forall₂ MonoEntry l l') {q : Identifier × registeredType} (hq : q ∈ l') :
    ∃ p ∈ l, MonoEntry p q := by
  induction h with
  | nil => exact absurd hq (List.not_mem_nil q)
  | cons hpq hrest ih =>
      rcases List.mem_cons.mp hq with hq | hq
      · subst hq
        exact ⟨_, List.mem_cons_self _ _, hpq⟩
      · obtain ⟨p, hp, hm⟩ := ih hq
        exact ⟨p, List.mem_cons_of_mem _ hp, hm⟩

theorem mono_validated {reg reg' : typeRegistry} (h : MonoReg reg reg')
    (hv : RegValidated reg) : RegValidated reg' := by
  intro q hq dep hdep
  obtain ⟨p, hp, hm⟩ := forall₂_mem_right h hq
  have hdep' : dep ∈ p.2.Typ.innerTypes := by
    rw [← hm.2.1]
    exact hdep
  rw [mono_isRegistered h dep]
  exact hv p hp dep hdep'

theorem mono_count_le {l l' : List (Identifier × registeredType)}
    (h : List.Forall₂ MonoEntry l l') : countNonCyclic l' ≤ countNonCyclic l := by
  induction h with
  | nil => exact Nat.le_refl 0
  | cons hpq hrest ih =>
      rename_i p q l₀ l₀'
      rw [countNonCyclic, countNonCyclic]
      have hhead : (if q.2.IsCyclic then 0 else 1) ≤ (if p.2.IsCyclic then 0 else 1) := by
        by_cases hp : p.2.IsCyclic
        · rw [if_pos hp, if_pos (hpq.2.2.2.2.2 hp)]
        · rw [if_neg hp]
          by_cases hqc : q.2.IsCyclic
          · rw [if_pos hqc]; exact Nat.zero_le 1
          · rw [if_neg hqc]
      omega

theorem mono_nonCyclicCount_le {reg reg' : typeRegistry} (h : MonoReg reg reg') :
    reg'.nonCyclicCount ≤ reg.nonCyclicCount :=
  mono_count_le h

theorem count_lt_of_flip {l l' : List (Identifier × registeredType)}
    (h : List.Forall₂ MonoEntry l l') (i : Identifier) :
    ∀ rt rt', lookupTypes l i = some rt → rt.IsCyclic = false →
      lookupTypes l' i = some rt' → rt'.IsCyclic = true →
      countNonCyclic l' < countNonCyclic l := by
  induction h with
  | nil =>
      intro rt rt' hl _ _ _
      exact absurd hl (by simp [lookupTypes])
  | cons hpq hrest ih =>
      rename_i p q l₀ l₀'
      intro rt rt' hl hfalse hl' htrue
      rw [lookupTypes] at hl hl'
      rw [countNonCyclic, countNonCyclic]
      by_cases hp : p.1 = i
      · rw [if_pos hp] at hl
        rw [hpq.1, if_pos hp] at hl'
        simp only [Option.some.injEq] at hl hl'
        have e1 : (if q.2.IsCyclic then (0:Nat) else 1) = 0 := by
          rw [hl', htrue, if_pos rfl]
        have e2 : (if p.2.IsCyclic then (0:Nat) else 1) = 1 := by
          rw [hl, hfalse, if_neg (by decide)]
        rw [e1, e2]
        have := mono_count_le hrest
        omega
      · rw [if_neg hp] at hl
        rw [hpq.1, if_neg hp] at hl'
        have htail := ih rt rt' hl hfalse hl' htrue
        have hhead : (if q.2.IsCyclic then 0 else 1) ≤ (if p.2.IsCyclic then 0 else 1) := by
          by_cases hpc : p.2.IsCyclic
          · rw [if_pos hpc, if_pos (hpq.2.2.2.2.2 hpc)]
          · rw [if_neg hpc]
            by_cases hqc : q.2.IsCyclic
            · rw [if_pos hqc]; exact Nat.zero_le 1
            · rw [if_neg hqc]
        omega

theorem countNonCyclic_pos {l : List (Identifier × registeredType)} {i : Identifier}
    {rt : registeredType} (hl : lookupTypes l i = some rt) (hc : rt.IsCyclic = false) :
    1 ≤ countNonCyclic l := by
  induction l with
  | nil => exact absurd hl (by simp [lookupTypes])
  | cons p rest ih =>
      rw [lookupTypes] at hl
      rw [countNonCyclic]
      by_cases hp : p.1 = i
      · rw [if_pos hp] at hl
        simp only [Option.some.injEq] at hl
        subst hl
        rw [if_neg (by rw [hc]; simp)]
        omega
      · rw [if_neg hp] at hl
        have := ih hl
        omega

theorem countNonCyclic_le_length (l : List (Identifier × registeredType)) :
    countNonCyclic l ≤ l.length := by
  induction l with
  | nil => exact Nat.le_refl 0
  | cons p rest ih =>
      rw [countNonCyclic, List.length_cons]
      by_cases hp : p.2.IsCyclic
      · rw [if_pos hp]; omega
      · rw [if_neg hp]; omega

theorem lookupTypes_setCyclic (l : List (Identifier × registeredType)) (i j : Identifier) :
    lookupTypes (l.map (fun p => if p.1 = i then (p.1, { p.2 with IsCyclic := true }) else p)) j =
      if j = i then (lookupTypes l j).map (fun rt => { rt with IsCyclic := true })
      else lookupTypes l j := by
  induction l with
  | nil => by_cases hj : j = i <;> simp [lookupTypes, hj]
  | cons p rest ih =>
      rw [List.map_cons]
      by_cases hp : p.1 = i
      · rw [if_pos hp]
        by_cases hpj : p.1 = j
        · have hj : j = i := by rw [← hpj, hp]
          rw [lookupTypes, if_pos hpj, if_pos hj, lookupTypes, if_pos hpj]
          rfl
        · rw [lookupTypes, if_neg hpj, ih, lookupTypes, if_neg hpj]
      · rw [if_neg hp]
        by_cases hpj : p.1 = j
        · have hj : ¬ j = i := by rw [← hpj]; exact hp
          rw [lookupTypes, if_pos hpj, if_neg hj, lookupTypes, if_pos hpj]
        · rw [lookupTypes, if_neg hpj, ih, lookupTypes, if_neg hpj]

theorem setCyclic_mono (reg : typeRegistry) (i : Identifier) :
    MonoReg reg (reg.setCyclic i) := by
  show List.Forall₂ MonoEntry reg.types (reg.types.map _)
  induction reg.types with
  | nil => exact List.Forall₂.nil
  | cons p rest ih =>
      rw [List.map_cons]
      refine List.Forall₂.cons ?_ ih
      by_cases hp : p.1 = i
      · rw [if_pos hp]
        exact ⟨rfl, rfl, rfl, rfl, rfl, fun _ => rfl⟩
      · rw [if_neg hp]
        exact monoEntry_refl p

theorem setCyclic_isCyclic_self (reg : typeRegistry) (i : Identifier)
    (h : reg.isRegistered i = true) : (reg.setCyclic i).IsCyclic i = true := by
  unfold typeRegistry.isRegistered at h
  unfold typeRegistry.IsCyclic typeRegistry.setCyclic typeRegistry.lookupType
  rw [lookupTypes_setCyclic reg.types i i, if_pos rfl]
  cases hl : reg.lookupType i with
  | none => rw [hl] at h; exact absurd h (by simp)
  | some rt =>
      unfold typeRegistry.lookupType at hl
      rw [hl]
      rfl

theorem setCyclic_count_lt (reg : typeRegistry) (i : Identifier) {rt : registeredType}
    (hl : reg.lookupType i = some rt) (hc : rt.IsCyclic = false) :
    (reg.setCyclic i).nonCyclicCount < reg.nonCyclicCount := by
  have hl' : lookupTypes (reg.setCyclic i).types i = some { rt with IsCyclic := true } := by
    show lookupTypes (reg.types.map _) i = _
    rw [lookupTypes_setCyclic reg.types i i, if_pos rfl]
    unfold typeRegistry.lookupType at hl
    rw [hl]
    rfl
  exact count_lt_of_flip (setCyclic_mono reg i) i rt { rt with IsCyclic := true } hl hc hl' rfl

/-! ## Claim C9: behaviour of the flood fill -/

theorem flagCyclicF_succ (fuel : Nat) (reg : typeRegistry) (i : Identifier) :
    flagCyclicF (fuel + 1) reg i =
      (reg.innerOf i).foldl (flagChildBody fuel (reg.PackageRootOf i)) (some (reg.setCyclic i)) := rfl

theorem foldl_childBody_none (fuel : Nat) (root : String) (cs : List Identifier) :
    cs.foldl (flagChildBody fuel root) none = none := by
  induction cs with
  | nil => rfl
  | cons c cs ih =>
      rw [List.foldl_cons]
      exact ih

theorem flagCyclicF_mono : ∀ fuel (reg : typeRegistry) (i : Identifier) (reg' : typeRegistry),
    flagCyclicF fuel reg i = some reg' → MonoReg reg reg' := by
  intro fuel
  induction fuel with
  | zero =>
      intro reg i reg' h
      exact absurd h (by rw [flagCyclicF]; simp)
  | succ f ih =>
      have hfold : ∀ (root : String) (cs : List Identifier) (acc reg' : typeRegistry),
          cs.foldl (flagChildBody f root) (some acc) = some reg' → MonoReg acc reg' := by
        intro root cs
        induction cs with
        | nil =>
            intro acc reg' h
            simp only [List.foldl_nil, Option.some.injEq] at h
            rw [← h]
            exact monoReg_refl acc
        | cons c cs ihl =>
            intro acc reg' h
            rw [List.foldl_cons] at h
            rw [flagChildBody] at h
            by_cases hcond : ¬ acc.IsCyclic c ∧ acc.PackageRootOf c = root
            · rw [if_pos hcond] at h
              cases hfc : flagCyclicF f acc c with
              | none =>
                  rw [hfc] at h
                  rw [foldl_childBody_none] at h
                  exact absurd h (by simp)
              | some cur =>
                  rw [hfc] at h
                  exact monoReg_trans (ih acc c cur hfc) (ihl cur reg' h)
            · rw [if_neg hcond] at h
              exact ihl acc reg' h
      intro reg i reg' h
      rw [flagCyclicF_succ] at h
      exact monoReg_trans (setCyclic_mono reg i) (hfold _ _ _ _ h)

theorem foldl_childBody_mono (fuel : Nat) (root : String) :
    ∀ (cs : List Identifier) (acc reg' : typeRegistry),
      cs.foldl (flagChildBody fuel root) (some acc) = some reg' → MonoReg acc reg' := by
  intro cs
  induction cs with
  | nil =>
      intro acc reg' h
      simp only [List.foldl_nil, Option.some.injEq] at h
      rw [← h]
      exact monoReg_refl acc
  | cons c cs ihl =>
      intro acc reg' h
      rw [List.foldl_cons] at h
      rw [flagChildBody] at h
      by_cases hcond : ¬ acc.IsCyclic c ∧ acc.PackageRootOf c = root
      · rw [if_pos hcond] at h
        cases hfc : flagCyclicF fuel acc c with
        | none =>
            rw [hfc] at h
            rw [foldl_childBody_none] at h
            exact absurd h (by simp)
        | some cur =>
            rw [hfc] at h
            exact monoReg_trans (flagCyclicF_mono fuel acc c cur hfc) (ihl cur reg' h)
      · rw [if_neg hcond] at h
        exact ihl acc reg' h

theorem flagCyclicF_sets (fuel : Nat) (reg : typeRegistry) (i : Identifier)
    (reg' : typeRegistry) (h : flagCyclicF fuel reg i = some reg')
    (hreg : reg.isRegistered i = true) : reg'.IsCyclic i = true := by
  cases fuel with
  | zero => exact absurd h (by rw [flagCyclicF]; simp)
  | succ f =>
      rw [flagCyclicF_succ] at h
      have hmono := foldl_childBody_mono f (reg.PackageRootOf i) (reg.innerOf i)
        (reg.setCyclic i) reg' h
      exact mono_isCyclic hmono i (setCyclic_isCyclic_self reg i hreg)

theorem flagAllF_mono : ∀ (cs : List Identifier) (fuel : Nat) (reg reg' : typeRegistry),
    flagAllF fuel reg cs = some reg' → MonoReg reg reg' := by
  intro cs
  induction cs with
  | nil =>
      intro fuel reg reg' h
      simp only [flagAllF, Option.some.injEq] at h
      rw [← h]
      exact monoReg_refl reg
  | cons c cs ih =>
      intro fuel reg reg' h
      rw [flagAllF] at h
      cases hfc : flagCyclicF fuel reg c with
      | none => rw [hfc] at h; exact absurd h (by simp)
      | some reg1 =>
          rw [hfc] at h
          exact monoReg_trans (flagCyclicF_mono fuel reg c reg1 hfc) (ih fuel reg1 reg' h)

theorem flagAllF_sets : ∀ (cs : List Identifier) (fuel : Nat) (reg reg' : typeRegistry),
    flagAllF fuel reg cs = some reg' →
    ∀ c ∈ cs, reg.isRegistered c = true → reg'.IsCyclic c = true := by
  intro cs
  induction cs with
  | nil =>
      intro fuel reg reg' h c hc
      exact absurd hc (List.not_mem_nil c)
  | cons x cs ih =>
      intro fuel reg reg' h c hc hcreg
      rw [flagAllF] at h
      cases hfc : flagCyclicF fuel reg x with
      | none => rw [hfc] at h; exact absurd h (by simp)
      | some reg1 =>
          rw [hfc] at h
          have hmono1 := flagCyclicF_mono fuel reg x reg1 hfc
          rcases List.mem_cons.mp hc with hcx | hcx
          · subst hcx
            have h1 := flagCyclicF_sets fuel reg c reg1 hfc hcreg
            exact mono_isCyclic (flagAllF_mono cs fuel reg1 reg' h) c h1
          · have hcreg1 : reg1.isRegistered c = true := by
              rw [mono_isRegistered hmono1 c]
              exact hcreg
            exact ih fuel reg1 reg' h c hcx hcreg1

theorem registered_children (reg : typeRegistry) (hv : RegValidated reg) (i : Identifier) :
    ∀ c ∈ reg.innerOf i, reg.isRegistered c = true := by
  intro c hc
  cases hl : reg.lookupType i with
  | none =>
      rw [typeRegistry.innerOf, hl] at hc
      exact absurd hc (List.not_mem_nil c)
  | some rt =>
      rw [typeRegistry.innerOf, hl] at hc
      exact hv (i, rt) (lookupTypes_mem hl) c hc

theorem isCyclic_lookup_false (reg : typeRegistry) (i : Identifier)
    (hreg : reg.isRegistered i = true) (hcyc : reg.IsCyclic i = false) :
    ∃ rt, reg.lookupType i = some rt ∧ rt.IsCyclic = false := by
  cases hl : reg.lookupType i with
  | none =>
      rw [typeRegistry.isRegistered, hl] at hreg
      exact absurd hreg (by simp)
  | some rt =>
      refine ⟨rt, rfl, ?_⟩
      rw [typeRegistry.IsCyclic, hl] at hcyc
      exact hcyc

theorem isCyclic_lookup_true (reg : typeRegistry) (i : Identifier)
    (hcyc : reg.IsCyclic i = true) :
    ∃ rt, reg.lookupType i = some rt ∧ rt.IsCyclic = true := by
  cases hl : reg.lookupType i with
  | none =>
      rw [typeRegistry.IsCyclic, hl] at hcyc
      exact absurd hcyc (by simp)
  | some rt =>
      refine ⟨rt, rfl, ?_⟩
      rw [typeRegistry.IsCyclic, hl] at hcyc
      exact hcyc

theorem count_pos_of_noncyclic (reg : typeRegistry) (i : Identifier)
    (hreg : reg.isRegistered i = true) (hcyc : reg.IsCyclic i = false) :
    1 ≤ reg.nonCyclicCount := by
  obtain ⟨rt, hl, hc⟩ := isCyclic_lookup_false reg i hreg hcyc
  exact countNonCyclic_pos hl hc

theorem flagCyclicF_enough_noncyclic : ∀ n : Nat, ∀ (reg : typeRegistry) (fuel : Nat) (i : Identifier),
    RegValidated reg → reg.isRegistered i = true → reg.IsCyclic i = false →
    reg.nonCyclicCount ≤ n + 1 → n < fuel → flagCyclicF fuel reg i ≠ none := by
  intro n
  induction n using Nat.strong_induction_on with
  | _ n ih =>
      intro reg fuel i hv hreg hcyc hcount hfuel
      cases fuel with
      | zero => omega
      | succ f =>
          rw [flagCyclicF_succ]
          obtain ⟨rt, hl, hrtc⟩ := isCyclic_lookup_false reg i hreg hcyc
          have hacc : (reg.setCyclic i).nonCyclicCount < reg.nonCyclicCount :=
            setCyclic_count_lt reg i hl hrtc
          have hvacc : RegValidated (reg.setCyclic i) := mono_validated (setCyclic_mono reg i) hv
          have hchild := registered_children reg hv i
          have hfold : ∀ (cs : List Identifier), (∀ c ∈ cs, reg.isRegistered c = true) →
              ∀ acc : typeRegistry, RegValidated acc → acc.nonCyclicCount ≤ n →
              (∀ j, acc.isRegistered j = reg.isRegistered j) →
              cs.foldl (flagChildBody f (reg.PackageRootOf i)) (some acc) ≠ none := by
            intro cs
            induction cs with
            | nil =>
                intro _ acc _ _ _
                simp
            | cons c cs ihl =>
                intro hcs acc hva hca hrs
                rw [List.foldl_cons, flagChildBody]
                by_cases hcond : ¬ acc.IsCyclic c ∧ acc.PackageRootOf c = reg.PackageRootOf i
                · rw [if_pos hcond]
                  have hcregacc : acc.isRegistered c = true := by
                    rw [hrs c]
                    exact hcs c (List.mem_cons_self _ _)
                  have hccyc : acc.IsCyclic c = false := Bool.eq_false_iff.mpr hcond.1
                  have hpos : 1 ≤ acc.nonCyclicCount :=
                    count_pos_of_noncyclic acc c hcregacc hccyc
                  have hn1 : 1 ≤ n := le_trans hpos hca
                  cases hfc : flagCyclicF f acc c with
                  | none =>
                      exact absurd hfc (ih (n - 1) (by omega) acc f c hva hcregacc hccyc
                        (by omega) (by omega))
                  | some cur =>
                      have hmono := flagCyclicF_mono f acc c cur hfc
                      refine ihl (fun x hx => hcs x (List.mem_cons_of_mem _ hx)) cur
                        (mono_validated hmono hva)
                        (le_trans (mono_nonCyclicCount_le hmono) hca)
                        (fun j => by rw [mono_isRegistered hmono j, hrs j])
                · rw [if_neg hcond]
                  exact ihl (fun x hx => hcs x (List.mem_cons_of_mem _ hx)) acc hva hca hrs
          exact hfold (reg.innerOf i) hchild (reg.setCyclic i) hvacc (by omega)
            (fun j => mono_isRegistered (setCyclic_mono reg i) j)

theorem flagCyclicF_enough (reg : typeRegistry) (fuel : Nat) (i : Identifier)
    (hv : RegValidated reg) (hfuel : reg.nonCyclicCount < fuel) :
    flagCyclicF fuel reg i ≠ none := by
  cases fuel with
  | zero => omega
  | succ f =>
      rw [flagCyclicF_succ]
      have hvacc : RegValidated (reg.setCyclic i) := mono_validated (setCyclic_mono reg i) hv
      have hacc : (reg.setCyclic i).nonCyclicCount ≤ reg.nonCyclicCount :=
        mono_nonCyclicCount_le (setCyclic_mono reg i)
      have hchild := registered_children reg hv i
      have hfold : ∀ (cs : List Identifier), (∀ c ∈ cs, reg.isRegistered c = true) →
          ∀ acc : typeRegistry, RegValidated acc → acc.nonCyclicCount ≤ f →
          (∀ j, acc.isRegistered j = reg.isRegistered j) →
          cs.foldl (flagChildBody f (reg.PackageRootOf i)) (some acc) ≠ none := by
        intro cs
        induction cs with
        | nil =>
            intro _ acc _ _ _
            simp
        | cons c cs ihl =>
            intro hcs acc hva hca hrs
            rw [List.foldl_cons, flagChildBody]
            by_cases hcond : ¬ acc.IsCyclic c ∧ acc.PackageRootOf c = reg.PackageRootOf i
            · rw [if_pos hcond]
              have hcregacc : acc.isRegistered c = true := by
                rw [hrs c]
                exact hcs c (List.mem_cons_self _ _)
              have hccyc : acc.IsCyclic c = false := Bool.eq_false_iff.mpr hcond.1
              have hpos : 1 ≤ acc.nonCyclicCount :=
                count_pos_of_noncyclic acc c hcregacc hccyc
              cases hfc : flagCyclicF f acc c with
              | none =>
                  exact absurd hfc (flagCyclicF_enough_noncyclic (f - 1) acc f c hva hcregacc
                    hccyc (by omega) (by omega))
              | some cur =>
                  have hmono := flagCyclicF_mono f acc c cur hfc
                  refine ihl (fun x hx => hcs x (List.mem_cons_of_mem _ hx)) cur
                    (mono_validated hmono hva)
                    (le_trans (mono_nonCyclicCount_le hmono) hca)
                    (fun j => by rw [mono_isRegistered hmono j, hrs j])
            · rw [if_neg hcond]
              exact ihl (fun x hx => hcs x (List.mem_cons_of_mem _ hx)) acc hva hca hrs
      exact hfold (reg.innerOf i) hchild (reg.setCyclic i) hvacc (by omega)
        (fun j => mono_isRegistered (setCyclic_mono reg i) j)

theorem flagAllF_enough : ∀ (cs : List Identifier) (reg : typeRegistry) (fuel : Nat),
    RegValidated reg → reg.types.length < fuel → flagAllF fuel reg cs ≠ none := by
  intro cs
  induction cs with
  | nil =>
      intro reg fuel _ _
      simp [flagAllF]
  | cons c cs ih =>
      intro reg fuel hv hfuel
      rw [flagAllF]
      have hcount : reg.nonCyclicCount < fuel :=
        lt_of_le_of_lt (countNonCyclic_le_length reg.types) hfuel
      cases hfc : flagCyclicF fuel reg c with
      | none => exact absurd hfc (flagCyclicF_enough reg fuel c hv hcount)
      | some reg1 =>
          have hmono := flagCyclicF_mono fuel reg c reg1 hfc
          exact ih reg1 fuel (mono_validated hmono hv) (by rw [mono_length hmono]; exact hfuel)

/-! ## Claim C9: behaviour of the cycle search -/

theorem findCycleF_succ (reg : typeRegistry) (fuel : Nat) (next : Identifier) (path : Path) :
    findCycleF reg (fuel + 1) next path =
      match path.IntroducesCycle next with
      | c :: cs => some (c :: cs)
      | [] =>
          if path.SeenNode next then some []
          else
            match (((reg.innerOf next).filter (fun c => ¬ reg.IsCyclic c)).map
                (fun c => findCycleF reg fuel c (path.Add next))).find?
                (fun r => decide (r ≠ some [])) with
            | some r => r
            | none => some [] := rfl

theorem seenNode_iff (p : Path) (i : Identifier) : Path.SeenNode p i = true ↔ i ∈ p := by
  induction p with
  | nil => simp [Path.SeenNode]
  | cons x rest ih =>
      rw [Path.SeenNode]
      by_cases hx : x = i
      · rw [if_pos hx]
        simp [hx]
      · rw [if_neg hx]
        rw [ih]
        simp [List.mem_cons]
        intro h
        exact absurd h.symm hx

theorem nodup_registered_length_le (reg : typeRegistry) (path : List Identifier)
    (h : ∀ x ∈ path, reg.isRegistered x = true) (hn : path.Nodup) :
    path.length ≤ reg.types.length := by
  have hsub : path ⊆ reg.types.map Prod.fst := by
    intro x hx
    have hr := h x hx
    rw [typeRegistry.isRegistered] at hr
    cases hl : reg.lookupType x with
    | none => rw [hl] at hr; exact absurd hr (by simp)
    | some rt => exact List.mem_map.mpr ⟨(x, rt), lookupTypes_mem hl, rfl⟩
  calc path.length ≤ (reg.types.map Prod.fst).length := (hn.subperm hsub).length_le
    _ = reg.types.length := List.length_map _ _

theorem findCycleF_enough : ∀ (fuel : Nat) (reg : typeRegistry) (next : Identifier) (path : Path),
    RegValidated reg → reg.isRegistered next = true →
    (∀ x ∈ path, reg.isRegistered x = true) → path.Nodup →
    reg.types.length + 1 ≤ fuel + path.length →
    findCycleF reg fuel next path ≠ none := by
  intro fuel
  induction fuel with
  | zero =>
      intro reg next path hv hreg hpath hnodup hlen
      have hle := nodup_registered_length_le reg path hpath hnodup
      omega
  | succ f ih =>
      intro reg next path hv hreg hpath hnodup hlen
      rw [findCycleF_succ]
      cases hic : path.IntroducesCycle next with
      | cons c cs => simp
      | nil =>
          dsimp only
          by_cases hseen : path.SeenNode next
          · rw [if_pos hseen]
            simp
          · rw [if_neg hseen]
            cases hfr : (((reg.innerOf next).filter (fun c => ¬ reg.IsCyclic c)).map
                (fun c => findCycleF reg f c (path.Add next))).find?
                (fun r => decide (r ≠ some [])) with
            | none => simp
            | some r =>
                dsimp only
                have hrmem := List.mem_of_find?_eq_some hfr
                obtain ⟨c, hcfil, hcr⟩ := List.mem_map.mp hrmem
                have hcin : c ∈ reg.innerOf next := (List.mem_filter.mp hcfil).1
                have hcreg : reg.isRegistered c = true := registered_children reg hv next c hcin
                have hnext_not : next ∉ path := by
                  intro hmem
                  exact hseen ((seenNode_iff path next).mpr hmem)
                have hpath' : ∀ x ∈ path.Add next, reg.isRegistered x = true := by
                  intro x hx
                  rw [Path.Add] at hx
                  rcases List.mem_append.mp hx with hx | hx
                  · exact hpath x hx
                  · rw [List.mem_singleton.mp hx]
                    exact hreg
                have hnodup' : (path.Add next).Nodup := by
                  rw [Path.Add, List.nodup_append]
                  refine ⟨hnodup, List.nodup_singleton next, ?_⟩
                  intro a ha hb
                  rw [List.mem_singleton.mp hb] at ha
                  exact hnext_not ha
                have hlen' : reg.types.length + 1 ≤ f + (path.Add next).length := by
                  rw [Path.Add, List.length_append, List.length_singleton]
                  omega
                have := ih reg c (path.Add next) hv hcreg hpath' hnodup' hlen'
                rw [hcr] at this
                exact this

theorem introducesCycle_shape (p : Path) (next : Identifier) :
    p.IntroducesCycle next = [] ∨ ∃ suf, p.IntroducesCycle next = suf ++ [next] := by
  rw [Path.IntroducesCycle]
  cases introGo next.PackagePath p.reverse [] true with
  | nil => exact Or.inl rfl
  | cons s rest => exact Or.inr ⟨s :: rest, rfl⟩

theorem mem_of_introducesCycle {p : Path} {next : Identifier} {c : Path}
    (h : p.IntroducesCycle next = c) (hne : c ≠ []) : next ∈ c := by
  rcases introducesCycle_shape p next with h0 | ⟨suf, hsuf⟩
  · rw [h0] at h
    exact absurd h.symm hne
  · rw [hsuf] at h
    rw [← h]
    exact List.mem_append.mpr (Or.inr (List.mem_singleton_self next))

theorem filter_noncyclic_false {reg : typeRegistry} {next c : Identifier}
    (h : c ∈ (reg.innerOf next).filter (fun c => ¬ reg.IsCyclic c)) :
    reg.IsCyclic c = false := by
  have := (List.mem_filter.mp h).2
  simpa using of_decide_eq_true this

theorem findCycleF_chain_noncyclic : ∀ (fuel : Nat) (reg : typeRegistry) (next : Identifier)
    (path : Path) (c : Path),
    RegValidated reg → reg.isRegistered next = true → reg.IsCyclic next = false →
    findCycleF reg fuel next path = some c → c ≠ [] →
    ∃ x ∈ c, reg.isRegistered x = true ∧ reg.IsCyclic x = false := by
  intro fuel
  induction fuel with
  | zero =>
      intro reg next path c _ _ _ h _
      exact absurd h (by rw [findCycleF]; simp)
  | succ f ih =>
      intro reg next path c hv hreg hcyc h hne
      rw [findCycleF_succ] at h
      cases hic : path.IntroducesCycle next with
      | cons s rest =>
          rw [hic] at h
          dsimp only at h
          simp only [Option.some.injEq] at h
          refine ⟨next, ?_, hreg, hcyc⟩
          rw [← h]
          exact mem_of_introducesCycle hic (by simp)
      | nil =>
          rw [hic] at h
          dsimp only at h
          by_cases hseen : path.SeenNode next
          · rw [if_pos hseen] at h
            simp only [Option.some.injEq] at h
            exact absurd h.symm hne
          · rw [if_neg hseen] at h
            cases hfr : (((reg.innerOf next).filter (fun c => ¬ reg.IsCyclic c)).map
                (fun c => findCycleF reg f c (path.Add next))).find?
                (fun r => decide (r ≠ some [])) with
            | none =>
                rw [hfr] at h
                dsimp only at h
                simp only [Option.some.injEq] at h
                exact absurd h.symm hne
            | some r =>
                rw [hfr] at h
                dsimp only at h
                subst h
                have hrmem := List.mem_of_find?_eq_some hfr
                obtain ⟨ch, hchfil, hchr⟩ := List.mem_map.mp hrmem
                have hchin : ch ∈ reg.innerOf next := (List.mem_filter.mp hchfil).1
                have hchreg : reg.isRegistered ch = true :=
                  registered_children reg hv next ch hchin
                have hchcyc : reg.IsCyclic ch = false := filter_noncyclic_false hchfil
                exact ih reg ch (path.Add next) c hv hchreg hchcyc hchr hne

theorem findCycleF_start_noncyclic : ∀ (fuel : Nat) (reg : typeRegistry) (i : Identifier)
    (c : Path),
    RegValidated reg → reg.isRegistered i = true →
    findCycleF reg fuel i [] = some c → c ≠ [] →
    ∃ x ∈ c, reg.isRegistered x = true ∧ reg.IsCyclic x = false := by
  intro fuel reg i c hv hreg h hne
  cases fuel with
  | zero => exact absurd h (by rw [findCycleF]; simp)
  | succ f =>
      rw [findCycleF_succ] at h
      have hic : Path.IntroducesCycle [] i = [] := rfl
      rw [hic] at h
      dsimp only at h
      have hseen : Path.SeenNode [] i = false := rfl
      rw [hseen] at h
      simp only [Bool.false_eq_true, if_false] at h
      cases hfr : (((reg.innerOf i).filter (fun c => ¬ reg.IsCyclic c)).map
          (fun c => findCycleF reg f c (Path.Add [] i))).find?
          (fun r => decide (r ≠ some [])) with
      | none =>
          rw [hfr] at h
          dsimp only at h
          simp only [Option.some.injEq] at h
          exact absurd h.symm hne
      | some r =>
          rw [hfr] at h
          dsimp only at h
          subst h
          have hrmem := List.mem_of_find?_eq_some hfr
          obtain ⟨ch, hchfil, hchr⟩ := List.mem_map.mp hrmem
          have hchin : ch ∈ reg.innerOf i := (List.mem_filter.mp hchfil).1
          have hchreg : reg.isRegistered ch = true := registered_children reg hv i ch hchin
          have hchcyc : reg.IsCyclic ch = false := filter_noncyclic_false hchfil
          exact findCycleF_chain_noncyclic f reg ch (Path.Add [] i) c hv hchreg hchcyc hchr hne

/-! ## Claim C9: the per-start-node loop -/

theorem flagLoopF_mono : ∀ (fuel : Nat) (reg : typeRegistry) (i : Identifier)
    (r : typeRegistry), flagLoopF fuel reg i = some (.ok r) → MonoReg reg r := by
  intro fuel
  induction fuel with
  | zero =>
      intro reg i r h
      exact absurd h (by rw [flagLoopF]; simp)
  | succ f ih =>
      intro reg i r h
      rw [flagLoopF] at h
      cases hfd : reg.findCycleD i [] with
      | none => rw [hfd] at h; exact absurd h (by simp)
      | some c =>
          rw [hfd] at h
          cases c with
          | nil =>
              dsimp only at h
              simp only [Option.some.injEq, Except.ok.injEq] at h
              rw [← h]
              exact monoReg_refl reg
          | cons c0 cs0 =>
              dsimp only at h
              by_cases hroots : ((c0 :: cs0).map reg.PackageRootOf).dedup.length > 1
              · rw [if_pos hroots] at h
                simp at h
              · rw [if_neg hroots] at h
                cases hfa : flagAllF reg.findFuel reg (c0 :: cs0) with
                | none => rw [hfa] at h; exact absurd h (by simp)
                | some reg1 =>
                    rw [hfa] at h
                    exact monoReg_trans (flagAllF_mono (c0 :: cs0) reg.findFuel reg reg1 hfa)
                      (ih reg1 i r h)

theorem flagLoopF_enough : ∀ (n : Nat) (reg : typeRegistry) (i : Identifier) (fuel : Nat),
    RegValidated reg → reg.isRegistered i = true → reg.nonCyclicCount ≤ n → n < fuel →
    flagLoopF fuel reg i ≠ none := by
  intro n
  induction n using Nat.strong_induction_on with
  | _ n ih =>
      intro reg i fuel hv hreg hcount hfuel
      cases fuel with
      | zero => omega
      | succ f =>
          rw [flagLoopF]
          have hfd0 : reg.findCycleD i [] ≠ none := by
            apply findCycleF_enough reg.findFuel reg i [] hv hreg
              (fun x hx => absurd hx (List.not_mem_nil x)) List.nodup_nil
            rw [typeRegistry.findFuel]
            simp
          cases hfd : reg.findCycleD i [] with
          | none => exact absurd hfd hfd0
          | some c =>
              cases c with
              | nil => simp
              | cons c0 cs0 =>
                  dsimp only
                  by_cases hroots : ((c0 :: cs0).map reg.PackageRootOf).dedup.length > 1
                  · rw [if_pos hroots]
                    simp
                  · rw [if_neg hroots]
                    have hlen : reg.types.length < reg.findFuel := by
                      rw [typeRegistry.findFuel]; omega
                    cases hfa : flagAllF reg.findFuel reg (c0 :: cs0) with
                    | none =>
                        exact absurd hfa (flagAllF_enough (c0 :: cs0) reg reg.findFuel hv hlen)
                    | some reg1 =>
                        dsimp only
                        have hmono := flagAllF_mono (c0 :: cs0) reg.findFuel reg reg1 hfa
                        obtain ⟨x, hx, hxreg, hxcyc⟩ := findCycleF_start_noncyclic reg.findFuel
                          reg i (c0 :: cs0) hv hreg hfd (by simp)
                        have hxcyc1 : reg1.IsCyclic x = true :=
                          flagAllF_sets (c0 :: cs0) reg.findFuel reg reg1 hfa x hx hxreg
                        obtain ⟨rt, hl, hrtc⟩ := isCyclic_lookup_false reg x hxreg hxcyc
                        obtain ⟨rt', hl', hrtc'⟩ := isCyclic_lookup_true reg1 x hxcyc1
                        have hlt : reg1.nonCyclicCount < reg.nonCyclicCount :=
                          count_lt_of_flip hmono x rt rt' hl hrtc hl' hrtc'
                        have hreg1 : reg1.isRegistered i = true := by
                          rw [mono_isRegistered hmono i]
                          exact hreg
                        exact ih reg1.nonCyclicCount (by omega) reg1 i f
                          (mono_validated hmono hv) hreg1 (le_refl _) (by omega)

theorem keys_registered_list : ∀ (l : List (Identifier × registeredType)) (i : Identifier),
    i ∈ l.map (fun p => p.1) → (lookupTypes l i).isSome = true := by
  intro l
  induction l with
  | nil =>
      intro i h
      exact absurd h (by simp)
  | cons q rest ih =>
      intro i h
      rw [lookupTypes]
      by_cases hq : q.1 = i
      · rw [if_pos hq]; rfl
      · rw [if_neg hq]
        rw [List.map_cons] at h
        rcases List.mem_cons.mp h with hpq | hpq
        · exact absurd hpq.symm hq
        · exact ih i hpq

theorem keys_registered (reg : typeRegistry) (i : Identifier)
    (h : i ∈ reg.types.map (fun p => p.1)) : reg.isRegistered i = true :=
  keys_registered_list reg.types i h

theorem flagCyclicDependenciesF_enough : ∀ (ids : List Identifier) (reg : typeRegistry),
    RegValidated reg → (∀ i ∈ ids, reg.isRegistered i = true) →
    flagCyclicDependenciesF reg ids ≠ none := by
  intro ids
  induction ids with
  | nil =>
      intro reg _ _
      simp [flagCyclicDependenciesF]
  | cons i ids ih =>
      intro reg hv hids
      rw [flagCyclicDependenciesF]
      have hloop : flagLoopF reg.loopFuel reg i ≠ none := by
        apply flagLoopF_enough reg.nonCyclicCount reg i reg.loopFuel hv
          (hids i (List.mem_cons_self _ _)) (le_refl _)
        rw [typeRegistry.loopFuel]
        have h2 : reg.nonCyclicCount ≤ reg.types.length := countNonCyclic_le_length reg.types
        omega
      cases hl : flagLoopF reg.loopFuel reg i with
      | none => exact absurd hl hloop
      | some r =>
          cases r with
          | error e => simp
          | ok reg' =>
              dsimp only
              have hmono := flagLoopF_mono reg.loopFuel reg i reg' hl
              refine ih reg' (mono_validated hmono hv) ?_
              intro j hj
              rw [mono_isRegistered hmono j]
              exact hids j (List.mem_cons_of_mem _ hj)

/-- C9: on a completeness-validated registry the cycle-flagging phase
terminates: the per-start-node loop that repeatedly calls `findCycle` and
flags the found chain finishes within one iteration per not-yet-cyclic
registered node (each package-internal chain found contains at least one
such node and flagging it is permanent), and the whole `Finalize` run never
exhausts the embedding's fuel. -/
theorem cycle_flagging_terminates (reg : typeRegistry)
    (hval : reg.validateAllTypesSatisfied = .ok ()) :
    (∀ i fuel, reg.isRegistered i = true → reg.nonCyclicCount < fuel →
       flagLoopF fuel reg i ≠ none) ∧
    reg.Finalize ≠ none := by
  have hv : RegValidated reg := (validateTypes_ok_iff reg reg.types).mp hval
  constructor
  · intro i fuel hreg hfuel
    exact flagLoopF_enough reg.nonCyclicCount reg i fuel hv hreg (le_refl _) hfuel
  · rw [typeRegistry.Finalize, typeRegistry.FinalizeWith, hval]
    have hdeps : flagCyclicDependenciesF reg (reg.types.map (fun p => p.1)) ≠ none :=
      flagCyclicDependenciesF_enough (reg.types.map (fun p => p.1)) reg hv
        (fun i hi => keys_registered reg i hi)
    cases hd : flagCyclicDependenciesF reg (reg.types.map (fun p => p.1)) with
    | none => exact absurd hd hdeps
    | some r =>
        cases r with
        | error e => simp
        | ok reg' => simp

/-- Witness for C9: the validated `regTwoNs` graph's flagging loop and whole
`Finalize` run terminate. -/
theorem cycle_flagging_terminates_witness :
    flagLoopF (regTwoNs.nonCyclicCount + 1) regTwoNs idA1 ≠ none ∧
    regTwoNs.Finalize ≠ none :=
  ⟨(cycle_flagging_terminates regTwoNs (by decide)).1 idA1 (regTwoNs.nonCyclicCount + 1)
      (by decide) (by decide),
   (cycle_flagging_terminates regTwoNs (by decide)).2⟩

/-! ## Claim C1: the flood fill never leaves the package root -/

theorem setCyclic_isCyclic_cases (reg : typeRegistry) (i j : Identifier)
    (h : (reg.setCyclic i).IsCyclic j = true) : reg.IsCyclic j = true ∨ j = i := by
  by_cases hj : j = i
  · exact Or.inr hj
  · left
    rw [typeRegistry.IsCyclic, typeRegistry.lookupType] at h ⊢
    rw [show (reg.setCyclic i).types = reg.types.map
        (fun p => if p.1 = i then (p.1, { p.2 with IsCyclic := true }) else p) from rfl,
      lookupTypes_setCyclic reg.types i j, if_neg hj] at h
    exact h

theorem flagCyclicF_root_confined : ∀ (fuel : Nat) (reg : typeRegistry) (i : Identifier)
    (reg' : typeRegistry), flagCyclicF fuel reg i = some reg' →
    ∀ j, reg'.IsCyclic j = true →
      reg.IsCyclic j = true ∨ reg.PackageRootOf j = reg.PackageRootOf i := by
  intro fuel
  induction fuel with
  | zero =>
      intro reg i reg' h
      exact absurd h (by rw [flagCyclicF]; simp)
  | succ f ih =>
      intro reg i reg' h
      rw [flagCyclicF_succ] at h
      have hfold : ∀ (cs : List Identifier) (acc : typeRegistry),
          cs.foldl (flagChildBody f (reg.PackageRootOf i)) (some acc) = some reg' →
          (∀ j, acc.IsCyclic j = true →
             reg.IsCyclic j = true ∨ reg.PackageRootOf j = reg.PackageRootOf i) →
          (∀ j, acc.PackageRootOf j = reg.PackageRootOf j) →
          ∀ j, reg'.IsCyclic j = true →
            reg.IsCyclic j = true ∨ reg.PackageRootOf j = reg.PackageRootOf i := by
        intro cs
        induction cs with
        | nil =>
            intro acc hacc hinv _ j hj
            simp only [List.foldl_nil, Option.some.injEq] at hacc
            rw [hacc] at hinv
            exact hinv j hj
        | cons c cs ihl =>
            intro acc hacc hinv hroots j hj
            rw [List.foldl_cons, flagChildBody] at hacc
            by_cases hcond : ¬ acc.IsCyclic c ∧ acc.PackageRootOf c = reg.PackageRootOf i
            · rw [if_pos hcond] at hacc
              cases hfc : flagCyclicF f acc c with
              | none =>
                  rw [hfc, foldl_childBody_none] at hacc
                  exact absurd hacc (by simp)
              | some cur =>
                  rw [hfc] at hacc
                  have hmono := flagCyclicF_mono f acc c cur hfc
                  refine ihl cur hacc ?_ ?_ j hj
                  · intro x hx
                    rcases ih acc c cur hfc x hx with hx' | hx'
                    · exact hinv x hx'
                    · right
                      calc reg.PackageRootOf x = acc.PackageRootOf x := (hroots x).symm
                        _ = acc.PackageRootOf c := hx'
                        _ = reg.PackageRootOf i := hcond.2
                  · intro x
                    rw [mono_rootOf hmono x, hroots x]
            · rw [if_neg hcond] at hacc
              exact ihl acc hacc hinv hroots j hj
      refine hfold (reg.innerOf i) (reg.setCyclic i) h ?_ ?_
      · intro x hx
        rcases setCyclic_isCyclic_cases reg i x hx with hx' | hx'
        · exact Or.inl hx'
        · right
          rw [hx']
      · intro x
        exact mono_rootOf (setCyclic_mono reg i) x

/-! ## Claim C2 (amended): characterization of the cycle test -/

theorem introGo_fire (pkg : String) : ∀ (rev : List Identifier), ∀ suffix : List Identifier,
    ((introGo pkg rev suffix false ≠ []) ↔ ∃ x ∈ rev, x.PackagePath = pkg) ∧
    ((introGo pkg rev suffix true ≠ []) ↔
       ∃ x ∈ rev.dropWhile (fun y => y.PackagePath == pkg), x.PackagePath = pkg) := by
  intro rev
  induction rev with
  | nil => intro suffix; simp [introGo]
  | cons z rest ih =>
      intro suffix
      constructor
      · rw [introGo]
        by_cases hz : z.PackagePath = pkg
        · rw [if_neg (fun hne => hne hz), if_neg (by decide)]
          constructor
          · intro _
            exact ⟨z, List.mem_cons_self _ _, hz⟩
          · intro _
            simp
        · rw [if_pos hz]
          rw [(ih (z :: suffix)).1]
          constructor
          · rintro ⟨x, hx, hxp⟩
            exact ⟨x, List.mem_cons_of_mem _ hx, hxp⟩
          · rintro ⟨x, hx, hxp⟩
            rcases List.mem_cons.mp hx with h | h
            · rw [h] at hxp
              exact absurd hxp hz
            · exact ⟨x, h, hxp⟩
      · rw [introGo]
        by_cases hz : z.PackagePath = pkg
        · rw [if_neg (fun hne => hne hz), if_pos rfl]
          rw [(ih (z :: suffix)).2]
          have hdw : (z :: rest).dropWhile (fun y => y.PackagePath == pkg) =
              rest.dropWhile (fun y => y.PackagePath == pkg) := by
            rw [List.dropWhile_cons, if_pos (by simpa using hz)]
          rw [hdw]
        · rw [if_pos hz]
          rw [(ih (z :: suffix)).1]
          have hdw : (z :: rest).dropWhile (fun y => y.PackagePath == pkg) = z :: rest := by
            rw [List.dropWhile_cons, if_neg (by simpa using hz)]
          rw [hdw]
          constructor
          · rintro ⟨x, hx, hxp⟩
            exact ⟨x, List.mem_cons_of_mem _ hx, hxp⟩
          · rintro ⟨x, hx, hxp⟩
            rcases List.mem_cons.mp hx with h | h
            · rw [h] at hxp
              exact absurd hxp hz
            · exact ⟨x, h, hxp⟩

theorem introGo_shape (pkg : String) : ∀ (rev : List Identifier), ∀ (suffix : List Identifier)
    (b : Bool) (res : List Identifier),
    introGo pkg rev suffix b = res → res ≠ [] →
    ∃ a x b', rev = a ++ x :: b' ∧ x.PackagePath = pkg ∧
      res = x :: (a.reverse ++ suffix) ∧
      (b = true → ∃ y ∈ a, y.PackagePath ≠ pkg) := by
  intro rev
  induction rev with
  | nil =>
      intro suffix b res h hne
      rw [introGo] at h
      exact absurd h.symm hne
  | cons z rest ih =>
      intro suffix b res h hne
      rw [introGo] at h
      by_cases hz : z.PackagePath = pkg
      · rw [if_neg (fun hne' => hne' hz)] at h
        cases b with
        | true =>
            rw [if_pos rfl] at h
            obtain ⟨a, x, b', hrev, hxp, hres, hmis⟩ := ih (z :: suffix) true res h hne
            refine ⟨z :: a, x, b', by rw [hrev, List.cons_append], hxp, ?_, ?_⟩
            · rw [hres, List.reverse_cons, List.append_assoc, List.singleton_append]
            · intro _
              obtain ⟨y, hy, hyp⟩ := hmis rfl
              exact ⟨y, List.mem_cons_of_mem _ hy, hyp⟩
        | false =>
            rw [if_neg (by decide)] at h
            refine ⟨[], z, rest, by rw [List.nil_append], hz, ?_, ?_⟩
            · rw [← h, List.reverse_nil, List.nil_append]
            · intro hfalse
              exact absurd hfalse (by decide)
      · rw [if_pos hz] at h
        obtain ⟨a, x, b', hrev, hxp, hres, _⟩ := ih (z :: suffix) false res h hne
        refine ⟨z :: a, x, b', by rw [hrev, List.cons_append], hxp, ?_, ?_⟩
        · rw [hres, List.reverse_cons, List.append_assoc, List.singleton_append]
        · intro _
          exact ⟨z, List.mem_cons_self _ _, hz⟩

/-- C2 as amended: the cycle test fires exactly when, after discarding the
maximal trailing run of ancestors in the reached node's own package, the
earlier ancestor path still contains a node of that package — the package
was left and is being re-entered.  A path entirely inside the node's package
never fires, and every reported chain is a suffix of the ancestor path whose
head is in the node's package and which contains a node of a different
package, extended by the reached node. -/
theorem introducesCycle_package_reentry (p : Path) (next : Identifier) :
    (p.IntroducesCycle next ≠ [] ↔
       ∃ x ∈ p.reverse.dropWhile (fun y => y.PackagePath == next.PackagePath),
         x.PackagePath = next.PackagePath) ∧
    ((∀ x ∈ p, x.PackagePath = next.PackagePath) → p.IntroducesCycle next = []) ∧
    (∀ c, p.IntroducesCycle next = c → c ≠ [] →
       ∃ x suf, c = (x :: suf) ++ [next] ∧ (x :: suf) <:+ p ∧
         x.PackagePath = next.PackagePath ∧
         ∃ y ∈ x :: suf, y.PackagePath ≠ next.PackagePath) := by
  have hfire : p.IntroducesCycle next ≠ [] ↔
      introGo next.PackagePath p.reverse [] true ≠ [] := by
    rw [Path.IntroducesCycle]
    cases introGo next.PackagePath p.reverse [] true with
    | nil => simp
    | cons s rest => simp
  refine ⟨hfire.trans ((introGo_fire next.PackagePath p.reverse []).2), ?_, ?_⟩
  · intro hall
    by_contra hne
    have hx := (hfire.trans ((introGo_fire next.PackagePath p.reverse []).2)).mp hne
    obtain ⟨x, hxd, hxp⟩ := hx
    have hxmem : x ∈ p.reverse := List.dropWhile_subset _ hxd
    have hxmem' : x ∈ p := List.mem_reverse.mp hxmem
    have : (fun y => y.PackagePath == next.PackagePath) x = true := by
      simpa using hxp
    have hdrop : p.reverse.dropWhile (fun y => y.PackagePath == next.PackagePath) = [] := by
      rw [List.dropWhile_eq_nil_iff]
      intro y hy
      simpa using hall y (List.mem_reverse.mp hy)
    rw [hdrop] at hxd
    exact absurd hxd (List.not_mem_nil x)
  · intro c hc hcne
    rw [Path.IntroducesCycle] at hc
    cases hg : introGo next.PackagePath p.reverse [] true with
    | nil =>
        rw [hg] at hc
        exact absurd hc.symm hcne
    | cons s rest =>
        rw [hg] at hc
        obtain ⟨a, x, b', hrev, hxp, hres, hmis⟩ :=
          introGo_shape next.PackagePath p.reverse [] true (s :: rest) hg (by simp)
        obtain ⟨y, hy, hyp⟩ := hmis rfl
        rw [List.append_nil] at hres
        refine ⟨x, a.reverse, ?_, ?_, hxp, ?_⟩
        · rw [← hc, hres]
        · refine ⟨b'.reverse, ?_⟩
          have hp : p = (a ++ x :: b').reverse := by
            rw [← hrev, List.reverse_reverse]
          rw [hp, List.reverse_append, List.reverse_cons, List.append_assoc,
            List.singleton_append]
        · exact ⟨y, List.mem_cons_of_mem _ (List.mem_reverse.mpr hy), hyp⟩

/-- Witness for C2's amended characterization: the test fires for
`n1.A -> n2.B` reaching the `n1` node `C` (package left and re-entered) and
does not fire on the all-`pkg1` path reaching `pkg1.A` again. -/
theorem introducesCycle_package_reentry_witness :
    Path.IntroducesCycle [idA2, idB2] idC2 ≠ [] ∧
    Path.IntroducesCycle [idA, idB] idA = [] :=
  ⟨(introducesCycle_package_reentry [idA2, idB2] idC2).1.mpr (by decide),
   (introducesCycle_package_reentry [idA, idB] idA).2.1 (by decide)⟩

/-! ## Claim C3: the per-group override loop in general -/

theorem lookupTypes_setOverride (l : List (Identifier × registeredType)) (i j : Identifier)
    (ov : String) :
    lookupTypes (l.map (fun p => if p.1 = i then (p.1, { p.2 with TypeNameOverride := ov }) else p)) j =
      if j = i then (lookupTypes l j).map (fun rt => { rt with TypeNameOverride := ov })
      else lookupTypes l j := by
  induction l with
  | nil => by_cases hj : j = i <;> simp [lookupTypes, hj]
  | cons p rest ih =>
      rw [List.map_cons]
      by_cases hp : p.1 = i
      · rw [if_pos hp]
        by_cases hpj : p.1 = j
        · have hj : j = i := by rw [← hpj, hp]
          rw [lookupTypes, if_pos hpj, if_pos hj, lookupTypes, if_pos hpj]
          rfl
        · rw [lookupTypes, if_neg hpj, ih, lookupTypes, if_neg hpj]
      · rw [if_neg hp]
        by_cases hpj : p.1 = j
        · have hj : ¬ j = i := by rw [← hpj]; exact hp
          rw [lookupTypes, if_pos hpj, if_neg hj, lookupTypes, if_pos hpj]
        · rw [lookupTypes, if_neg hpj, ih, lookupTypes, if_neg hpj]

theorem setOverride_self (reg : typeRegistry) (i : Identifier) (ov : String)
    (h : reg.isRegistered i = true) : (reg.setOverride i ov).TypeNameOverrideOf i = ov := by
  rw [typeRegistry.isRegistered] at h
  rw [typeRegistry.TypeNameOverrideOf, typeRegistry.lookupType]
  rw [show (reg.setOverride i ov).types = reg.types.map
      (fun p => if p.1 = i then (p.1, { p.2 with TypeNameOverride := ov }) else p) from rfl,
    lookupTypes_setOverride reg.types i i ov, if_pos rfl]
  cases hl : reg.lookupType i with
  | none => rw [hl] at h; exact absurd h (by simp)
  | some rt =>
      rw [typeRegistry.lookupType] at hl
      rw [hl]
      rfl

theorem setOverride_other (reg : typeRegistry) (i j : Identifier) (ov : String) (h : j ≠ i) :
    (reg.setOverride i ov).TypeNameOverrideOf j = reg.TypeNameOverrideOf j := by
  rw [typeRegistry.TypeNameOverrideOf, typeRegistry.TypeNameOverrideOf,
    typeRegistry.lookupType, typeRegistry.lookupType]
  rw [show (reg.setOverride i ov).types = reg.types.map
      (fun p => if p.1 = i then (p.1, { p.2 with TypeNameOverride := ov }) else p) from rfl,
    lookupTypes_setOverride reg.types i j ov, if_neg h]

theorem setOverride_isRegistered (reg : typeRegistry) (i j : Identifier) (ov : String) :
    (reg.setOverride i ov).isRegistered j = reg.isRegistered j := by
  rw [typeRegistry.isRegistered, typeRegistry.isRegistered,
    typeRegistry.lookupType, typeRegistry.lookupType]
  rw [show (reg.setOverride i ov).types = reg.types.map
      (fun p => if p.1 = i then (p.1, { p.2 with TypeNameOverride := ov }) else p) from rfl,
    lookupTypes_setOverride reg.types i j ov]
  by_cases hj : j = i
  · rw [if_pos hj]
    cases lookupTypes reg.types j <;> rfl
  · rw [if_neg hj]

theorem assignOverrides_untouched : ∀ (v : List Identifier) (reg : typeRegistry)
    (ovs : List (String × Identifier)) (reg' : typeRegistry),
    assignOverrides reg ovs v = .ok reg' → ∀ j, j ∉ v →
    reg'.TypeNameOverrideOf j = reg.TypeNameOverrideOf j := by
  intro v
  induction v with
  | nil =>
      intro reg ovs reg' h j _
      simp only [assignOverrides, Except.ok.injEq] at h
      rw [h]
  | cons i is ih =>
      intro reg ovs reg' h j hj
      rw [assignOverrides] at h
      cases hlk : lookupStr ovs (overrideFor i) with
      | some c => rw [hlk] at h; exact absurd h (by simp)
      | none =>
          rw [hlk] at h
          have hji : j ≠ i := fun he => hj (he ▸ List.mem_cons_self i is)
          have hjis : j ∉ is := fun he => hj (List.mem_cons_of_mem _ he)
          rw [ih _ _ _ h j hjis, setOverride_other reg i j (overrideFor i) hji]

theorem assignOverrides_ok_values : ∀ (v : List Identifier) (reg : typeRegistry)
    (ovs : List (String × Identifier)) (reg' : typeRegistry),
    assignOverrides reg ovs v = .ok reg' → v.Nodup →
    (∀ i ∈ v, reg.isRegistered i = true) →
    ∀ i ∈ v, reg'.TypeNameOverrideOf i = overrideFor i := by
  intro v
  induction v with
  | nil =>
      intro reg ovs reg' _ _ _ i hi
      exact absurd hi (List.not_mem_nil i)
  | cons i is ih =>
      intro reg ovs reg' h hnodup hregd x hx
      rw [assignOverrides] at h
      cases hlk : lookupStr ovs (overrideFor i) with
      | some c => rw [hlk] at h; exact absurd h (by simp)
      | none =>
          rw [hlk] at h
          have hnotmem : i ∉ is := (List.nodup_cons.mp hnodup).1
          rcases List.mem_cons.mp hx with hxi | hxis
          · subst hxi
            rw [assignOverrides_untouched is _ _ reg' h x hnotmem]
            exact setOverride_self reg x (overrideFor x) (hregd x (List.mem_cons_self _ _))
          · refine ih _ _ _ h (List.nodup_cons.mp hnodup).2 ?_ x hxis
            intro y hy
            rw [setOverride_isRegistered reg i y (overrideFor i)]
            exact hregd y (List.mem_cons_of_mem _ hy)

theorem assignOverrides_collision : ∀ (v : List Identifier) (reg : typeRegistry)
    (ovs : List (String × Identifier)),
    ((∃ i ∈ v, ∃ j ∈ v, i ≠ j ∧ overrideFor i = overrideFor j) ∨
     (∃ i ∈ v, lookupStr ovs (overrideFor i) ≠ none)) →
    (∀ k c, lookupStr ovs k = some c → c ∉ v ∧ k = overrideFor c) →
    v.Nodup →
    ∃ i' c', i' ∈ v ∧ i' ≠ c' ∧ overrideFor c' = overrideFor i' ∧
      assignOverrides reg ovs v = .error (renameMsg i' (overrideFor i') c') := by
  intro v
  induction v with
  | nil =>
      intro reg ovs hdisj _ _
      rcases hdisj with ⟨i, hi, _⟩ | ⟨i, hi, _⟩ <;> exact absurd hi (List.not_mem_nil i)
  | cons i is ih =>
      intro reg ovs hdisj hinv hnodup
      rw [assignOverrides]
      cases hlk : lookupStr ovs (overrideFor i) with
      | some c =>
          obtain ⟨hcv, hck⟩ := hinv (overrideFor i) c hlk
          have hic : i ≠ c := fun he => hcv (he ▸ List.mem_cons_self i is)
          exact ⟨i, c, List.mem_cons_self _ _, hic, hck.symm, rfl⟩
      | none =>
          have hinv' : ∀ k c, lookupStr ((overrideFor i, i) :: ovs) k = some c →
              c ∉ is ∧ k = overrideFor c := by
            intro k c h
            rw [lookupStr] at h
            by_cases hk : overrideFor i = k
            · rw [if_pos hk] at h
              simp only [Option.some.injEq] at h
              subst h
              exact ⟨(List.nodup_cons.mp hnodup).1, hk.symm⟩
            · rw [if_neg hk] at h
              obtain ⟨hcv, hck⟩ := hinv k c h
              exact ⟨fun he => hcv (List.mem_cons_of_mem _ he), hck⟩
          have hdisj' : (∃ x ∈ is, ∃ y ∈ is, x ≠ y ∧ overrideFor x = overrideFor y) ∨
              (∃ x ∈ is, lookupStr ((overrideFor i, i) :: ovs) (overrideFor x) ≠ none) := by
            rcases hdisj with ⟨x, hx, y, hy, hxy, hov⟩ | ⟨x, hx, hlkx⟩
            · rcases List.mem_cons.mp hx with hxi | hxis
              · rcases List.mem_cons.mp hy with hyi | hyis
                · rw [hxi, hyi] at hxy
                  exact absurd rfl hxy
                · subst hxi
                  right
                  refine ⟨y, hyis, ?_⟩
                  rw [lookupStr, if_pos hov]
                  simp
              · rcases List.mem_cons.mp hy with hyi | hyis
                · subst hyi
                  right
                  refine ⟨x, hxis, ?_⟩
                  rw [lookupStr, if_pos hov.symm]
                  simp
                · exact Or.inl ⟨x, hxis, y, hyis, hxy, hov⟩
            · rcases List.mem_cons.mp hx with hxi | hxis
              · subst hxi
                exact absurd hlk hlkx
              · right
                refine ⟨x, hxis, ?_⟩
                rw [lookupStr]
                by_cases hk : overrideFor i = overrideFor x
                · rw [if_pos hk]
                  simp
                · rw [if_neg hk]
                  exact hlkx
          obtain ⟨i', c', hi', hic', hov', herr⟩ :=
            ih (reg.setOverride i (overrideFor i)) ((overrideFor i, i) :: ovs) hdisj' hinv'
              (List.nodup_cons.mp hnodup).2
          exact ⟨i', c', List.mem_cons_of_mem _ hi', hic', hov', herr⟩

/-! ## Claims C1 and C3: the amended statements -/

/-- C1 as amended: a cycle is detected only when it spans at least two
namespaces.  The claim's own single-namespace example succeeds with both
members left `IsCyclic = false`; the two-namespace cycle of `regTwoNs`
succeeds and flags its members and their same-root descendant while the
other-root descendant stays unflagged; and in general the flood fill of
`flagCyclic` only ever flags nodes of the package root of the node it
started from. -/
theorem single_root_cycle_flagging_amended :
    (regTwoNs.Finalize = some (.ok regTwoNsFlagged) ∧
       regTwoNsFlagged.IsCyclic idA1 = true ∧ regTwoNsFlagged.IsCyclic idB1 = true ∧
       regTwoNsFlagged.IsCyclic idE1 = true ∧ regTwoNsFlagged.IsCyclic idD1 = false ∧
       regTwoNs.PackageRootOf idD1 ≠ regTwoNs.PackageRootOf idB1 ∧
       idD1 ∈ regTwoNs.innerOf idB1 ∧ idE1 ∈ regTwoNs.innerOf idB1) ∧
    (regSameNs.Finalize = some (.ok regSameNs) ∧
       regSameNs.IsCyclic idA = false ∧ regSameNs.IsCyclic idB = false) ∧
    (∀ (fuel : Nat) (reg : typeRegistry) (i : Identifier) (reg' : typeRegistry),
       flagCyclicF fuel reg i = some reg' →
       ∀ j, reg'.IsCyclic j = true →
         reg.IsCyclic j = true ∨ reg.PackageRootOf j = reg.PackageRootOf i) :=
  ⟨by decide, by decide, flagCyclicF_root_confined⟩

/-- Witness for C1's amended statement: applying the flood-fill confinement
to the concrete flood fill from `pkg1.x.A`, which flags `pkg1.z.E`. -/
theorem single_root_cycle_flagging_amended_witness :
    regTwoNs.IsCyclic idE1 = true ∨
      regTwoNs.PackageRootOf idE1 = regTwoNs.PackageRootOf idA1 :=
  single_root_cycle_flagging_amended.2.2 5 regTwoNs idA1 regTwoNsFlagged (by decide)
    idE1 (by decide)

/-- C3 as amended: within one package-root, grouping is by case-folded short
name; in every group of two or more cyclic types the loop writes each
member's override, the capitalized concatenation of the namespace's last
segment and the short name, and fails with the error naming both full names
and the colliding target exactly at a member whose override was already
computed by a distinct member of the same group; overrides colliding across
different groups of one package-root are not detected. -/
theorem remediation_per_group_amended :
    (regGroupOk.remediateConflictingNames = .ok regGroupOkOut ∧
       regGroupOkOut.TypeNameOverrideOf idW1 = overrideFor idW1 ∧
       regGroupOkOut.TypeNameOverrideOf idW2 = overrideFor idW2 ∧
       overrideFor idW1 = "Ubar" ∧ overrideFor idW2 = "VBar" ∧
       goToLower idW1.Name = goToLower idW2.Name) ∧
    (regGroupClash.remediateConflictingNames = .error (renameMsg idZ2 "Abfoo" idZ1) ∧
       renameMsg idZ2 "Abfoo" idZ1 =
         "go-restli: Could not rename conflicting type \"y.ab.foo\" to \"y.ab.Abfoo\"" ++
           " as it would conflict with other renamed type \"x.ab.foo\"" ∧
       overrideFor idZ1 = overrideFor idZ2 ∧ idZ1 ≠ idZ2 ∧
       goToLower idZ1.Name = goToLower idZ2.Name) ∧
    (regCrossGroup.remediateConflictingNames = .ok regCrossGroupOut ∧
       regCrossGroupOut.TypeNameOverrideOf idX1 = regCrossGroupOut.TypeNameOverrideOf idY1 ∧
       goToLower idX1.Name ≠ goToLower idY1.Name) ∧
    (∀ (v : List Identifier) (reg : typeRegistry) (reg' : typeRegistry),
       assignOverrides reg [] v = .ok reg' → v.Nodup →
       (∀ i ∈ v, reg.isRegistered i = true) →
       ∀ i ∈ v, reg'.TypeNameOverrideOf i = overrideFor i) ∧
    (∀ (v : List Identifier) (reg : typeRegistry),
       (∃ i ∈ v, ∃ j ∈ v, i ≠ j ∧ overrideFor i = overrideFor j) → v.Nodup →
       ∃ i' c', i' ∈ v ∧ i' ≠ c' ∧ overrideFor c' = overrideFor i' ∧
         assignOverrides reg [] v = .error (renameMsg i' (overrideFor i') c')) := by
  refine ⟨by decide, by decide, by decide, ?_, ?_⟩
  · intro v reg reg' h hnodup hregd
    exact assignOverrides_ok_values v reg [] reg' h hnodup hregd
  · intro v reg hdisj hnodup
    exact assignOverrides_collision v reg [] (Or.inl hdisj)
      (fun k c h => absurd h (by simp [lookupStr])) hnodup

/-- Witness for C3's amended statement: the group-loop facts applied to the
concrete groups of `regGroupOk` and `regGroupClash`. -/
theorem remediation_per_group_amended_witness :
    (∃ i' c', i' ∈ [idZ1, idZ2] ∧ i' ≠ c' ∧ overrideFor c' = overrideFor i' ∧
       assignOverrides regGroupClash [] [idZ1, idZ2] =
         .error (renameMsg i' (overrideFor i') c')) ∧
    ((assignOverrides regGroupOk [] [idW1, idW2]).map
        (fun r => r.TypeNameOverrideOf idW1) = .ok (overrideFor idW1)) := by
  constructor
  · exact remediation_per_group_amended.2.2.2.2 [idZ1, idZ2] regGroupClash
      ⟨idZ1, by decide, idZ2, by decide, by decide, by decide⟩ (by decide)
  · have h := remediation_per_group_amended.2.2.2.1 [idW1, idW2] regGroupOk
      ((regGroupOk.setOverride idW1 (overrideFor idW1)).setOverride idW2 (overrideFor idW2))
      (by decide) (by decide) (by decide) idW1 (by decide)
    rw [show assignOverrides regGroupOk [] [idW1, idW2] =
        .ok ((regGroupOk.setOverride idW1 (overrideFor idW1)).setOverride idW2 (overrideFor idW2))
      from by decide]
    rw [Except.map, h]

end restli
